import Mathlib

/-!
# Group-Cast chat server: a shallow embedding of `server_side[1].cpp`

The server keeps three global tables
(`registered_users`, `connected_clients`, `chat_groups`) and runs one
`client_session` per accepted socket.  Every function of the source becomes a
Lean function that takes the tables, returns the new tables, and returns the
list of observable effects it performed, in program order: messages written
with `send_to_client`, mutex acquisitions and releases, and `close` calls.

* `std::unordered_map<K,V>` is an association list (`UMap`).  The C++ container
  leaves the iteration order unspecified; the list order is one admissible
  order, with a fresh key placed last.
* `std::unordered_set<int>` is a list of sockets without repetition.
* `std::string` is `String`; the index based string calls of the source
  (`find_first_not_of`, `substr`, `find`, `rfind(p, 0) == 0`) work on the
  underlying character list.
-/

namespace GroupCast

/-- A socket descriptor, `int` in the source. -/
abbrev Socket := Int

/-- Association-list model of `std::unordered_map`. -/
abbrev UMap (κ : Type) (ν : Type) := List (κ × ν)

namespace UMap

variable {κ ν : Type} [DecidableEq κ]

/-- The keys, in iteration order. -/
def keys (m : UMap κ ν) : List κ := m.map Prod.fst

/-- Model of `m.find(k)`: the mapped value, `none` standing for `end()`. -/
def find : UMap κ ν → κ → Option ν
  | [], _ => none
  | (k', v) :: rest, k => if k' = k then some v else find rest k

/-- Model of `m.count(k)`, which is 0 or 1 for a map. -/
def count (m : UMap κ ν) (k : κ) : Nat :=
  match find m k with
  | some _ => 1
  | none => 0

/-- Model of `m.erase(k)`. -/
def erase (m : UMap κ ν) (k : κ) : UMap κ ν :=
  m.filter (fun e => decide (e.1 ≠ k))

/-- Model of reading `m[k]`: `operator[]` returns the mapped value when the key
is present and otherwise first inserts a value-initialised entry (`dflt`),
so the read also yields a new map. -/
def subscript (m : UMap κ ν) (k : κ) (dflt : ν) : ν × UMap κ ν :=
  match find m k with
  | some v => (v, m)
  | none => (dflt, m ++ [(k, dflt)])

/-- Model of the assignment `m[k] = v`. -/
def assign : UMap κ ν → κ → ν → UMap κ ν
  | [], k, v => [(k, v)]
  | (k', v') :: rest, k, v =>
    if k' = k then (k', v) :: rest else (k', v') :: assign rest k v

end UMap

/-- Model of `std::unordered_set<int>::insert`. -/
def set_insert (s : List Socket) (x : Socket) : List Socket :=
  if x ∈ s then s else s ++ [x]

/-- Model of `std::unordered_set<int>::erase`; the source's return value
(`> 0` exactly when `x` was present) is read off the set beforehand. -/
def set_erase (s : List Socket) (x : Socket) : List Socket :=
  s.filter (fun y => decide (y ≠ x))

/-- The two global mutexes. -/
inductive Mutex
  | clients_lock
  | groups_lock
  deriving DecidableEq, Repr

/-- Observable effects, recorded in program order. -/
inductive Event
  | send (client_socket : Socket) (msg : String)
  | acquire (m : Mutex)
  | release (m : Mutex)
  | close (client_socket : Socket)
  deriving DecidableEq, Repr

/-- The three global tables of the server. -/
structure State where
  registered_users : UMap String String
  connected_clients : UMap Socket String
  chat_groups : UMap String (List Socket)
  deriving DecidableEq, Repr

/-! ## String helpers -/

/-- Model of `input.find_first_not_of(chars)`; `none` is `npos`. -/
def find_first_not_of (chars : List Char) : List Char → Option Nat
  | [] => none
  | c :: cs =>
    if c ∈ chars then (find_first_not_of chars cs).map (· + 1) else some 0

/-- Model of `input.find_last_not_of(chars)`; `none` is `npos`. -/
def find_last_not_of (chars : List Char) : List Char → Option Nat
  | [] => none
  | c :: cs =>
    match find_last_not_of chars cs with
    | some i => some (i + 1)
    | none => if c ∈ chars then none else some 0

/-- Model of `s.substr(pos, len)` for `pos ≤ s.size()`. -/
def substr (s : String) (pos len : Nat) : String :=
  ⟨(s.data.drop pos).take len⟩

/-- Model of `s.substr(pos)` for `pos ≤ s.size()`. -/
def substr_from (s : String) (pos : Nat) : String :=
  ⟨s.data.drop pos⟩

/-- The characters `strip` removes: `" \t\r\n"`. -/
def strip_chars : List Char := [' ', '\t', '\r', '\n']

/-- Model of `strip`. -/
def strip (input : String) : String :=
  match find_first_not_of strip_chars input.data,
        find_last_not_of strip_chars input.data with
  | some b, some e => substr input b (e - b + 1)
  | _, _ => ""

/-- Index of the first occurrence of `c` in a character list. -/
def index_of (c : Char) : List Char → Option Nat
  | [] => none
  | d :: ds => if d = c then some 0 else (index_of c ds).map (· + 1)

/-- Model of `s.find(c, pos)`; `none` is `npos`. -/
def find_char (s : String) (c : Char) (pos : Nat) : Option Nat :=
  (index_of c (s.data.drop pos)).map (· + pos)

/-- Model of the test `s.rfind(p, 0) == 0`, true exactly when `s` begins with `p`. -/
def starts_with (s p : String) : Bool :=
  p.data.isPrefixOf s.data

/-! ## Credentials -/

/-- Model of the loop body of `read_user_data` on one line of the file. -/
def read_user_line (users : UMap String String) (line : String) : UMap String String :=
  match find_char line ':' 0 with
  | some sep_pos =>
    let uname := strip (substr line 0 sep_pos)
    let pwd := strip (substr_from line (sep_pos + 1))
    UMap.assign users uname pwd
  | none => users

/-- Model of `read_user_data` on the lines `std::getline` yields. -/
def read_user_data (lines : List String) : UMap String String :=
  lines.foldl read_user_line []

/-! ## Message router -/

/-- Model of `send_to_client`. -/
def send_to_client (client_socket : Socket) (msg : String) : List Event :=
  [Event.send client_socket msg]

/-- Model of `broadcast_all`. -/
def broadcast_all (st : State) (msg : String) (from_socket : Socket) :
    State × List Event :=
  let r := UMap.subscript st.connected_clients from_socket ""
  let sender_name := r.1
  let sends := r.2.flatMap (fun e =>
    if e.1 ≠ from_socket then
      send_to_client e.1 ("[Broadcast] " ++ sender_name ++ ": " ++ msg)
    else [])
  ({ st with connected_clients := r.2 },
    [Event.acquire Mutex.clients_lock] ++ sends ++ [Event.release Mutex.clients_lock])

/-- Model of `send_private`. -/
def send_private (st : State) (sender_socket : Socket) (recipient content : String) :
    State × List Event :=
  match st.connected_clients.find? (fun e => decide (e.2 = recipient)) with
  | some e =>
    let r := UMap.subscript st.connected_clients sender_socket ""
    ({ st with connected_clients := r.2 },
      [Event.acquire Mutex.clients_lock]
        ++ send_to_client e.1 ("[Whisper] " ++ r.1 ++ ": " ++ content)
        ++ send_to_client sender_socket ("[Sent -> " ++ recipient ++ "]: " ++ content)
        ++ [Event.release Mutex.clients_lock])
  | none =>
    (st,
      [Event.acquire Mutex.clients_lock]
        ++ send_to_client sender_socket
            ("Error: Could not find user '" ++ recipient ++ "' online.")
        ++ [Event.release Mutex.clients_lock])

/-- Model of `send_group`. -/
def send_group (st : State) (sender_socket : Socket) (group_name content : String) :
    State × List Event :=
  match UMap.find st.chat_groups group_name with
  | none =>
    (st,
      [Event.acquire Mutex.groups_lock]
        ++ send_to_client sender_socket
            ("Error: Group '" ++ group_name ++ "' does not exist.")
        ++ [Event.release Mutex.groups_lock])
  | some members =>
    if sender_socket ∉ members then
      (st,
        [Event.acquire Mutex.groups_lock]
          ++ send_to_client sender_socket
              ("Error: You are not a member of '" ++ group_name ++ "'.")
          ++ [Event.release Mutex.groups_lock])
    else
      let r := UMap.subscript st.connected_clients sender_socket ""
      let sender_name := r.1
      let sends := members.flatMap (fun member_socket =>
        if member_socket ≠ sender_socket then
          send_to_client member_socket
            ("[Group: " ++ group_name ++ "] " ++ sender_name ++ ": " ++ content)
        else [])
      ({ st with connected_clients := r.2 },
        [Event.acquire Mutex.groups_lock] ++ sends
          ++ send_to_client sender_socket
              ("[Group: " ++ group_name ++ "] You: " ++ content)
          ++ [Event.release Mutex.groups_lock])

/-- Model of `disconnect_client`. -/
def disconnect_client (st : State) (client_socket : Socket) : State × List Event :=
  let departing_user : String :=
    if UMap.count st.connected_clients client_socket > 0 then
      (UMap.subscript st.connected_clients client_socket "").1
    else ""
  let st1 : State :=
    if UMap.count st.connected_clients client_socket > 0 then
      { st with connected_clients := UMap.erase st.connected_clients client_socket }
    else st
  let ev1 := [Event.acquire Mutex.clients_lock, Event.release Mutex.clients_lock]
  if departing_user ≠ "" then
    let st2 : State :=
      { st1 with chat_groups :=
          st1.chat_groups.map (fun group_pair =>
            (group_pair.1, set_erase group_pair.2 client_socket)) }
    let r := broadcast_all st2 (departing_user ++ " left the chat.") client_socket
    (r.1,
      ev1 ++ [Event.acquire Mutex.groups_lock] ++ r.2
        ++ [Event.release Mutex.groups_lock] ++ [Event.close client_socket])
  else
    (st1, ev1 ++ [Event.close client_socket])

/-! ## Session worker -/

/-- The help text sent after a successful login. -/
def help_text : String :=
  "Commands available:\n" ++
  "  /broadcast <message>    - Send a public message\n" ++
  "  /msg <user> <message>   - Send a private message\n" ++
  "  /create_group <name>    - Create a new group\n" ++
  "  /join_group <name>      - Join an existing group\n" ++
  "  /leave_group <name>     - Leave a group\n" ++
  "  /group_msg <group> <m>  - Group message\n" ++
  "  /list_groups            - List all existing groups\n" ++
  "  /list_members <group>   - List members of a group\n" ++
  "  /exit                   - Disconnect\n"

/-- Model of steps 1 to 5 of `client_session` (prompts, authentication,
registration, welcome).  `recv1` and `recv2` are the texts the two `recv` calls
leave in `buffer`, `none` when `recv` returns a value `<= 0`.  The Boolean
tells whether the session goes on to the command loop. -/
def client_session_login (st : State) (client_socket : Socket)
    (recv1 recv2 : Option String) : State × List Event × Bool :=
  let ev0 := send_to_client client_socket "Please enter your username: "
  match recv1 with
  | none => (st, ev0 ++ [Event.close client_socket], false)
  | some buffer1 =>
    let username := strip buffer1
    let ev1 := ev0 ++ send_to_client client_socket "Enter your password: "
    match recv2 with
    | none => (st, ev1 ++ [Event.close client_socket], false)
    | some buffer2 =>
      let password := strip buffer2
      if UMap.count st.registered_users username = 0
          ∨ (UMap.subscript st.registered_users username "").1 ≠ password then
        (st,
          ev1 ++ send_to_client client_socket "Login failed. Disconnecting.\n"
            ++ [Event.close client_socket],
          false)
      else if st.connected_clients.any (fun item => decide (item.2 = username)) then
        (st,
          ev1 ++ [Event.acquire Mutex.clients_lock]
            ++ send_to_client client_socket "Error: This user is already active.\n"
            ++ [Event.close client_socket, Event.release Mutex.clients_lock],
          false)
      else
        let st1 : State :=
          { st with connected_clients :=
              UMap.assign st.connected_clients client_socket username }
        let r := broadcast_all st1 (username ++ " joined the chat.") client_socket
        (r.1,
          ev1 ++ [Event.acquire Mutex.clients_lock, Event.release Mutex.clients_lock]
            ++ send_to_client client_socket
                ("Hello " ++ username ++ ", welcome to the server!\n")
            ++ send_to_client client_socket help_text
            ++ r.2,
          true)

/-- Model of the `/create_group` branch of the command loop, `gname` parsed. -/
def create_group (st : State) (client_socket : Socket) (gname : String) :
    State × List Event :=
  if UMap.count st.chat_groups gname ≠ 0 then
    (st,
      [Event.acquire Mutex.groups_lock]
        ++ send_to_client client_socket ("Error: Group '" ++ gname ++ "' already exists.")
        ++ [Event.release Mutex.groups_lock])
  else
    let r := UMap.subscript st.chat_groups gname []
    ({ st with chat_groups := UMap.assign r.2 gname (set_insert r.1 client_socket) },
      [Event.acquire Mutex.groups_lock]
        ++ send_to_client client_socket
            ("Group '" ++ gname ++ "' was successfully created.")
        ++ [Event.release Mutex.groups_lock])

/-- Model of the `/join_group` branch of the command loop, `gname` parsed. -/
def join_group (st : State) (client_socket : Socket) (gname : String) :
    State × List Event :=
  if UMap.count st.chat_groups gname = 0 then
    (st,
      [Event.acquire Mutex.groups_lock]
        ++ send_to_client client_socket ("Error: No group named '" ++ gname ++ "' found.")
        ++ [Event.release Mutex.groups_lock])
  else
    let r := UMap.subscript st.chat_groups gname []
    ({ st with chat_groups := UMap.assign r.2 gname (set_insert r.1 client_socket) },
      [Event.acquire Mutex.groups_lock]
        ++ send_to_client client_socket ("You joined the group '" ++ gname ++ "'.")
        ++ [Event.release Mutex.groups_lock])

/-- Model of the `/leave_group` branch of the command loop, `gname` parsed. -/
def leave_group (st : State) (client_socket : Socket) (gname : String) :
    State × List Event :=
  match UMap.find st.chat_groups gname with
  | some members =>
    if client_socket ∈ members then
      ({ st with chat_groups :=
          UMap.assign st.chat_groups gname (set_erase members client_socket) },
        [Event.acquire Mutex.groups_lock]
          ++ send_to_client client_socket ("You left the group '" ++ gname ++ "'.")
          ++ [Event.release Mutex.groups_lock])
    else
      ({ st with chat_groups :=
          UMap.assign st.chat_groups gname (set_erase members client_socket) },
        [Event.acquire Mutex.groups_lock]
          ++ send_to_client client_socket ("Error: You were not part of '" ++ gname ++ "'.")
          ++ [Event.release Mutex.groups_lock])
  | none =>
    (st,
      [Event.acquire Mutex.groups_lock]
        ++ send_to_client client_socket ("Error: Group '" ++ gname ++ "' does not exist.")
        ++ [Event.release Mutex.groups_lock])

/-- Model of the `/list_groups` branch of the command loop. -/
def list_groups (st : State) (client_socket : Socket) : State × List Event :=
  if st.chat_groups.isEmpty then
    (st,
      [Event.acquire Mutex.groups_lock]
        ++ send_to_client client_socket "No groups currently exist."
        ++ [Event.release Mutex.groups_lock])
  else
    let oss := st.chat_groups.foldl
      (fun acc kv => acc ++ "  - " ++ kv.1 ++ " (" ++ toString kv.2.length ++ " members)\n")
      "Existing groups:\n"
    (st,
      [Event.acquire Mutex.groups_lock]
        ++ send_to_client client_socket oss
        ++ [Event.release Mutex.groups_lock])

/-- Model of the `/list_members` branch of the command loop, `gname` parsed.
Each `connected_clients[sock]` is an `operator[]` read. -/
def list_members (st : State) (client_socket : Socket) (gname : String) :
    State × List Event :=
  match UMap.find st.chat_groups gname with
  | none =>
    (st,
      [Event.acquire Mutex.groups_lock]
        ++ send_to_client client_socket ("Error: Group '" ++ gname ++ "' does not exist.")
        ++ [Event.release Mutex.groups_lock])
  | some members =>
    let r := members.foldl
      (fun (acc : String × UMap Socket String) sock =>
        let q := UMap.subscript acc.2 sock ""
        (acc.1 ++ "  - " ++ q.1 ++ "\n", q.2))
      ("Members of [" ++ gname ++ "]:\n", st.connected_clients)
    ({ st with connected_clients := r.2 },
      [Event.acquire Mutex.groups_lock]
        ++ send_to_client client_socket r.1
        ++ [Event.release Mutex.groups_lock])

/-- Model of one iteration of the command loop of `client_session` (step 6).
`received` is the text `recv` leaves in `buffer`, `none` when `recv` returns a
value `<= 0`.  The Boolean tells whether the loop goes on. -/
def command_step (st : State) (client_socket : Socket) (received : Option String) :
    State × List Event × Bool :=
  match received with
  | none =>
    let r := disconnect_client st client_socket
    (r.1, r.2, false)
  | some buffer =>
    let command_line := strip buffer
    if command_line = "" then (st, [], true)
    else if command_line = "/exit" then
      let r := disconnect_client st client_socket
      (r.1, r.2, false)
    else if starts_with command_line "/broadcast " then
      let msg_content := strip (substr_from command_line 11)
      let r := broadcast_all st msg_content client_socket
      (r.1, r.2, true)
    else if starts_with command_line "/msg " then
      match find_char command_line ' ' 5 with
      | some space_loc =>
        let recp := strip (substr command_line 5 (space_loc - 5))
        let msg := strip (substr_from command_line (space_loc + 1))
        let r := send_private st client_socket recp msg
        (r.1, r.2, true)
      | none =>
        (st,
          send_to_client client_socket
            "Error: Invalid format. Usage: /msg <user> <message>",
          true)
    else if starts_with command_line "/create_group " then
      let gname := strip (substr_from command_line 14)
      let r := create_group st client_socket gname
      (r.1, r.2, true)
    else if starts_with command_line "/join_group " then
      let gname := strip (substr_from command_line 12)
      let r := join_group st client_socket gname
      (r.1, r.2, true)
    else if starts_with command_line "/leave_group " then
      let gname := strip (substr_from command_line 13)
      let r := leave_group st client_socket gname
      (r.1, r.2, true)
    else if starts_with command_line "/group_msg " then
      match find_char command_line ' ' 11 with
      | some space_pos =>
        let group_name := strip (substr command_line 11 (space_pos - 11))
        let group_msg := strip (substr_from command_line (space_pos + 1))
        let r := send_group st client_socket group_name group_msg
        (r.1, r.2, true)
      | none =>
        (st,
          send_to_client client_socket
            "Error: Invalid format. Usage: /group_msg <group> <message>",
          true)
    else if command_line = "/list_groups" then
      let r := list_groups st client_socket
      (r.1, r.2, true)
    else if starts_with command_line "/list_members " then
      let gname := strip (substr_from command_line 13)
      let r := list_members st client_socket gname
      (r.1, r.2, true)
    else
      (st,
        send_to_client client_socket
          "Error: Unrecognized command. Type /help for assistance.",
        true)

/-! ## The server as a transition system -/

/-- The tables together with the sockets whose `client_session` thread is
inside the command loop (logged in, `disconnect_client` not yet called). -/
structure Server where
  st : State
  active : List Socket
  deriving DecidableEq, Repr

/-- What can happen next: `accept` hands a new socket to `client_session`,
which runs the login steps on what the client sends; or the command loop of an
active session gets the result of its next `recv`. -/
inductive Action
  | connect (client_socket : Socket) (recv1 recv2 : Option String)
  | receive (client_socket : Socket) (received : Option String)
  deriving DecidableEq, Repr

/-- One action.  `accept` never returns a descriptor that is still open, so a
`connect` on the socket of an active session does not occur; only an active
session runs the command loop. -/
def Server.step (sv : Server) : Action → Server × List Event
  | Action.connect client_socket recv1 recv2 =>
    if client_socket ∈ sv.active then (sv, [])
    else
      let r := client_session_login sv.st client_socket recv1 recv2
      ({ st := r.1, active := if r.2.2 then client_socket :: sv.active else sv.active },
        r.2.1)
  | Action.receive client_socket received =>
    if client_socket ∈ sv.active then
      let r := command_step sv.st client_socket received
      ({ st := r.1,
         active := if r.2.2 then sv.active else sv.active.filter (fun s => decide (s ≠ client_socket)) },
        r.2.1)
    else (sv, [])

/-- The server after a sequence of actions. -/
def Server.run (sv : Server) (actions : List Action) : Server :=
  actions.foldl (fun acc a => (acc.step a).1) sv

/-- The server as `main` leaves it before the accept loop: credentials read,
both registries empty, no session. -/
def Server.init (users : UMap String String) : Server :=
  { st := { registered_users := users, connected_clients := [], chat_groups := [] },
    active := [] }

/-- The states the server can reach with credentials `users`. -/
def Reachable (users : UMap String String) (sv : Server) : Prop :=
  ∃ actions : List Action, (Server.init users).run actions = sv

/-! ## Observations -/

/-- The messages of a trace, with their destination, in order. -/
def sends : List Event → List (Socket × String)
  | [] => []
  | Event.send s m :: rest => (s, m) :: sends rest
  | _ :: rest => sends rest

/-- The messages of a trace sent to socket `s`, in order. -/
def sent_to (s : Socket) (evs : List Event) : List String :=
  ((sends evs).filter (fun e => decide (e.1 = s))).map Prod.snd

/-- Checks a trace against a locking discipline, `held` being the mutexes the
path holds so far: a mutex is acquired only when not held and when
`may_nest h m` allows it for every held `h`, is released only when held, and
none is held at the end. -/
def lock_discipline (may_nest : Mutex → Mutex → Bool) : List Mutex → List Event → Bool
  | held, [] => held.isEmpty
  | held, Event.acquire m :: rest =>
    !held.contains m && held.all (fun h => may_nest h m)
      && lock_discipline may_nest (m :: held) rest
  | held, Event.release m :: rest =>
    held.contains m && lock_discipline may_nest (held.filter (fun h => decide (h ≠ m))) rest
  | held, _ :: rest => lock_discipline may_nest held rest

/-- No mutex is acquired while another one is held. -/
def never_nested (evs : List Event) : Bool :=
  lock_discipline (fun _ _ => false) [] evs

/-- The only nesting allowed is `clients_lock` taken while `groups_lock` is held. -/
def groups_then_clients (evs : List Event) : Bool :=
  lock_discipline
    (fun h m => decide (h = Mutex.groups_lock ∧ m = Mutex.clients_lock)) [] evs

/-! ## Registry properties -/

/-- No two distinct sockets of the client registry carry the same username. -/
def unique_usernames (st : State) : Prop :=
  ∀ s1 s2 u, (s1, u) ∈ st.connected_clients → (s2, u) ∈ st.connected_clients → s1 = s2

/-- Every socket in a member set is a key of the client registry. -/
def no_dangling_members (st : State) : Prop :=
  ∀ g members s, (g, members) ∈ st.chat_groups → s ∈ members →
    s ∈ UMap.keys st.connected_clients

/-- Socket `s` is in no member set. -/
def in_no_group (st : State) (s : Socket) : Prop :=
  ∀ g members, (g, members) ∈ st.chat_groups → s ∉ members

/-- No two distinct sockets of the client registry carry the same non-empty
username. -/
def unique_nonempty_usernames (st : State) : Prop :=
  ∀ s1 s2 u, u ≠ "" → (s1, u) ∈ st.connected_clients →
    (s2, u) ∈ st.connected_clients → s1 = s2

/-- The bookkeeping that holds between the tables and the live sessions when the
credentials hold no empty username: the credentials are those read at start,
every live session is registered under a non-empty username, and every member
of a group is a live session. -/
def Server.consistent (users : UMap String String) (sv : Server) : Prop :=
  sv.st.registered_users = users
    ∧ (∀ s ∈ sv.active, ∃ u, u ≠ "" ∧ UMap.find sv.st.connected_clients s = some u)
    ∧ (∀ g members x, (g, members) ∈ sv.st.chat_groups → x ∈ members → x ∈ sv.active)

/-- The representation invariant of the containers: a `std::unordered_map` has
no repeated key and a `std::unordered_set` no repeated element. -/
def State.wf (st : State) : Prop :=
  (UMap.keys st.connected_clients).Nodup
    ∧ (UMap.keys st.chat_groups).Nodup
    ∧ ∀ g members, (g, members) ∈ st.chat_groups → members.Nodup

/-! ## Facts about the containers -/

section UMapFacts

variable {κ ν : Type} [DecidableEq κ]

theorem UMap.find_eq_none_iff (m : UMap κ ν) (k : κ) :
    UMap.find m k = none ↔ k ∉ UMap.keys m := by
  induction m with
  | nil => simp [UMap.find, UMap.keys]
  | cons e rest ih =>
    obtain ⟨k', v⟩ := e
    by_cases h : k' = k
    · simp [UMap.find, UMap.keys, h]
    · have h2 : ¬ k = k' := fun q => h q.symm
      simp only [UMap.keys] at ih
      simp [UMap.find, UMap.keys, h, h2, ih]

theorem UMap.find_isSome_iff (m : UMap κ ν) (k : κ) :
    (∃ v, UMap.find m k = some v) ↔ k ∈ UMap.keys m := by
  have h := UMap.find_eq_none_iff m k
  cases hf : UMap.find m k with
  | none => simp [hf] at h; simp [h]
  | some v => simp [hf] at h; simp [h]

theorem UMap.count_eq_zero_iff (m : UMap κ ν) (k : κ) :
    UMap.count m k = 0 ↔ UMap.find m k = none := by
  unfold UMap.count
  cases UMap.find m k <;> simp

theorem UMap.find_erase_self (m : UMap κ ν) (k : κ) :
    UMap.find (UMap.erase m k) k = none := by
  rw [UMap.find_eq_none_iff]
  simp [UMap.keys, UMap.erase, List.mem_filter]

theorem UMap.find_append (m m' : UMap κ ν) (k : κ) :
    UMap.find (m ++ m') k = (UMap.find m k).orElse (fun _ => UMap.find m' k) := by
  induction m with
  | nil => simp [UMap.find]
  | cons e rest ih =>
    obtain ⟨k', v⟩ := e
    by_cases h : k' = k
    · simp [UMap.find, h]
    · simp [UMap.find, h, ih]

theorem UMap.find_assign_self (m : UMap κ ν) (k : κ) (v : ν) :
    UMap.find (UMap.assign m k v) k = some v := by
  induction m with
  | nil => simp [UMap.assign, UMap.find]
  | cons e rest ih =>
    obtain ⟨k', v'⟩ := e
    by_cases h : k' = k
    · simp [UMap.assign, UMap.find, h]
    · simp [UMap.assign, UMap.find, h, ih]

theorem UMap.find_assign_ne (m : UMap κ ν) (k k' : κ) (v : ν) (hne : k' ≠ k) :
    UMap.find (UMap.assign m k v) k' = UMap.find m k' := by
  induction m with
  | nil =>
    have h2 : ¬ k = k' := fun q => hne q.symm
    simp [UMap.assign, UMap.find, h2]
  | cons e rest ih =>
    obtain ⟨k0, v0⟩ := e
    by_cases h : k0 = k
    · subst h
      have h2 : ¬ k0 = k' := fun q => hne q.symm
      simp [UMap.assign, UMap.find, h2]
    · by_cases h3 : k0 = k'
      · subst h3
        simp [UMap.assign, UMap.find, h]
      · simp [UMap.assign, UMap.find, h, h3, ih]

theorem UMap.assign_of_find (m : UMap κ ν) (k : κ) (v : ν)
    (h : UMap.find m k = some v) : UMap.assign m k v = m := by
  induction m with
  | nil => simp [UMap.find] at h
  | cons e rest ih =>
    obtain ⟨k', v'⟩ := e
    by_cases hk : k' = k
    · simp [UMap.find, hk] at h
      simp [UMap.assign, hk, h]
    · simp [UMap.find, hk] at h
      simp [UMap.assign, hk, ih h]

theorem UMap.assign_assign (m : UMap κ ν) (k : κ) (v w : ν) :
    UMap.assign (UMap.assign m k v) k w = UMap.assign m k w := by
  induction m with
  | nil => simp [UMap.assign]
  | cons e rest ih =>
    obtain ⟨k', v'⟩ := e
    by_cases hk : k' = k
    · simp [UMap.assign, hk]
    · simp [UMap.assign, hk, ih]

theorem UMap.keys_assign (m : UMap κ ν) (k : κ) (v : ν) (k' : κ) :
    k' ∈ UMap.keys (UMap.assign m k v) ↔ k' = k ∨ k' ∈ UMap.keys m := by
  induction m with
  | nil => simp [UMap.assign, UMap.keys]
  | cons e rest ih =>
    obtain ⟨k0, v0⟩ := e
    simp only [UMap.keys] at ih
    by_cases hk : k0 = k
    · subst hk
      simp [UMap.assign, UMap.keys]
    · simp only [UMap.assign, hk, if_false, UMap.keys, List.map_cons, List.mem_cons, ih]
      tauto

theorem UMap.assign_append_of_none (m : UMap κ ν) (k : κ) (v w : ν)
    (h : UMap.find m k = none) :
    UMap.assign (m ++ [(k, w)]) k v = m ++ [(k, v)] := by
  induction m with
  | nil => simp [UMap.assign]
  | cons e rest ih =>
    obtain ⟨k', v'⟩ := e
    by_cases hk : k' = k
    · simp [UMap.find, hk] at h
    · simp [UMap.find, hk] at h
      simp [UMap.assign, hk, ih h]

theorem UMap.mem_of_find (m : UMap κ ν) (k : κ) (v : ν)
    (h : UMap.find m k = some v) : (k, v) ∈ m := by
  induction m with
  | nil => simp [UMap.find] at h
  | cons e rest ih =>
    obtain ⟨k', v'⟩ := e
    by_cases hk : k' = k
    · simp [UMap.find, hk] at h
      simp [hk, h]
    · simp [UMap.find, hk] at h
      simp [ih h]

end UMapFacts

theorem mem_set_insert (members : List Socket) (s x : Socket) :
    x ∈ set_insert members s ↔ x = s ∨ x ∈ members := by
  unfold set_insert
  by_cases h : s ∈ members
  · simp only [h, if_true]
    constructor
    · intro hx; exact Or.inr hx
    · rintro (rfl | hx)
      · exact h
      · exact hx
  · simp only [h, if_false, List.mem_append, List.mem_singleton]
    tauto

theorem set_insert_idem (members : List Socket) (s : Socket) :
    set_insert (set_insert members s) s = set_insert members s := by
  have h : s ∈ set_insert members s := (mem_set_insert members s s).2 (Or.inl rfl)
  generalize set_insert members s = t at h ⊢
  simp [set_insert, h]

theorem set_erase_of_not_mem (members : List Socket) (s : Socket) (h : s ∉ members) :
    set_erase members s = members := by
  unfold set_erase
  rw [List.filter_eq_self]
  intro a ha
  have : a ≠ s := fun q => h (q ▸ ha)
  simp [this]

theorem not_mem_set_erase (members : List Socket) (s : Socket) :
    s ∉ set_erase members s := by
  simp [set_erase, List.mem_filter]

/-! ## `disconnect_client` -/

theorem UMap.count_of_find {κ ν : Type} [DecidableEq κ] (m : UMap κ ν) (k : κ) (v : ν)
    (h : UMap.find m k = some v) : UMap.count m k = 1 := by
  simp [UMap.count, h]

theorem UMap.subscript_of_find {κ ν : Type} [DecidableEq κ] (m : UMap κ ν) (k : κ)
    (v dflt : ν) (h : UMap.find m k = some v) : UMap.subscript m k dflt = (v, m) := by
  simp [UMap.subscript, h]

theorem UMap.subscript_of_none {κ ν : Type} [DecidableEq κ] (m : UMap κ ν) (k : κ)
    (dflt : ν) (h : UMap.find m k = none) :
    UMap.subscript m k dflt = (dflt, m ++ [(k, dflt)]) := by
  simp [UMap.subscript, h]

/-- What `disconnect_client` does to a socket registered under a non-empty
username: the entry is erased, the socket leaves every member set, and the
`operator[]` read in `broadcast_all` puts the socket back with an empty name. -/
theorem disconnect_client_registered (st : State) (s : Socket) (u : String)
    (h : UMap.find st.connected_clients s = some u) (hu : u ≠ "") :
    (disconnect_client st s).1 =
      { registered_users := st.registered_users,
        connected_clients := UMap.erase st.connected_clients s ++ [(s, "")],
        chat_groups := st.chat_groups.map (fun gp => (gp.1, set_erase gp.2 s)) } := by
  have hc : UMap.count st.connected_clients s > 0 := by
    rw [UMap.count_of_find _ _ _ h]; decide
  have hsub := UMap.subscript_of_find st.connected_clients s u "" h
  have he := UMap.find_erase_self st.connected_clients s
  simp [disconnect_client, hc, hsub, hu, broadcast_all, UMap.subscript_of_none _ _ _ he]

/-- What `disconnect_client` does to a socket registered under the empty
username: the entry is erased and nothing else happens. -/
theorem disconnect_client_empty_name (st : State) (s : Socket)
    (h : UMap.find st.connected_clients s = some "") :
    disconnect_client st s =
      ({ st with connected_clients := UMap.erase st.connected_clients s },
        [Event.acquire Mutex.clients_lock, Event.release Mutex.clients_lock,
          Event.close s]) := by
  have hc : UMap.count st.connected_clients s > 0 := by
    rw [UMap.count_of_find _ _ _ h]; decide
  have hsub := UMap.subscript_of_find st.connected_clients s "" "" h
  simp [disconnect_client, hc, hsub]

/-- What `disconnect_client` does to a socket that is not registered. -/
theorem disconnect_client_absent (st : State) (s : Socket)
    (h : UMap.find st.connected_clients s = none) :
    disconnect_client st s =
      (st, [Event.acquire Mutex.clients_lock, Event.release Mutex.clients_lock,
          Event.close s]) := by
  have hc : ¬ UMap.count st.connected_clients s > 0 := by
    rw [(UMap.count_eq_zero_iff _ _).2 h]; decide
  simp [disconnect_client, hc]

/-- A socket registered under a non-empty username is in no member set after
`disconnect_client`. -/
theorem disconnect_client_clears_groups (st : State) (s : Socket) (u : String)
    (h : UMap.find st.connected_clients s = some u) (hu : u ≠ "") :
    in_no_group (disconnect_client st s).1 s := by
  rw [disconnect_client_registered st s u h hu]
  intro g members hm
  simp only [List.mem_map] at hm
  obtain ⟨gp, _, hgp⟩ := hm
  have : members = set_erase gp.2 s := by
    have := congrArg Prod.snd hgp
    simpa using this.symm
  rw [this]
  exact not_mem_set_erase gp.2 s

/-- C1, code defect: for a socket `s` registered under a non-empty username,
`s` is again a key of `connected_clients` when `disconnect_client s` completes,
now mapped to the empty string.  The entry is erased first, but the departure
notice goes through `broadcast_all`, whose read `connected_clients[from_socket]`
inserts the missing key. -/
theorem disconnect_client_key_survives (st : State) (s : Socket) (u : String)
    (h : UMap.find st.connected_clients s = some u) (hu : u ≠ "") :
    s ∈ UMap.keys (disconnect_client st s).1.connected_clients
      ∧ UMap.find (disconnect_client st s).1.connected_clients s = some "" := by
  rw [disconnect_client_registered st s u h hu]
  have he := UMap.find_erase_self st.connected_clients s
  refine ⟨?_, ?_⟩
  · simp [UMap.keys]
  · simp [UMap.find_append, he, UMap.find]

/-- C1 at a concrete registry: socket 5 is the key of "alice" before
`disconnect_client 5`, and the registry afterwards is `5 ↦ ""`. -/
theorem disconnect_client_key_survives_witness :
    (5 : Socket) ∈ UMap.keys [((5 : Socket), "alice")]
      ∧ (disconnect_client
          { registered_users := [("alice", "pa")],
            connected_clients := [(5, "alice")],
            chat_groups := [] } 5).1.connected_clients = [(5, "")]
      ∧ ((5 : Socket) ∈ UMap.keys (disconnect_client
          { registered_users := [("alice", "pa")],
            connected_clients := [(5, "alice")],
            chat_groups := [] } 5).1.connected_clients
        ∧ UMap.find (disconnect_client
          { registered_users := [("alice", "pa")],
            connected_clients := [(5, "alice")],
            chat_groups := [] } 5).1.connected_clients 5 = some "") :=
  ⟨by decide, by rfl,
    disconnect_client_key_survives
      { registered_users := [("alice", "pa")],
        connected_clients := [(5, "alice")],
        chat_groups := [] } 5 "alice" (by rfl) (by decide)⟩

/-- C2, code defect: with the credentials file `:pw` a client logs in under
the empty username on socket 5 and creates group `g`; in that state socket 5 is
a key of `connected_clients`, and after `disconnect_client 5` it is still a
member of `g`.  `disconnect_client` takes an empty `departing_user` to mean
"was not registered" and skips the group cleanup. -/
theorem disconnect_client_keeps_member_of_empty_name :
    ((Server.init (read_user_data [":pw"])).run
        [Action.connect 5 (some "\n") (some "pw\n"),
         Action.receive 5 (some "/create_group g\n")]).st
      = { registered_users := [("", "pw")],
          connected_clients := [(5, "")],
          chat_groups := [("g", [5])] }
    ∧ (5 : Socket) ∈ UMap.keys [((5 : Socket), "")]
    ∧ (disconnect_client
          { registered_users := [("", "pw")],
            connected_clients := [(5, "")],
            chat_groups := [("g", [5])] } 5).1
        = { registered_users := [("", "pw")],
            connected_clients := [],
            chat_groups := [("g", [5])] }
    ∧ ¬ in_no_group (disconnect_client
          { registered_users := [("", "pw")],
            connected_clients := [(5, "")],
            chat_groups := [("g", [5])] } 5).1 5 := by
  refine ⟨by rfl, by decide, by rfl, ?_⟩
  intro hno
  exact hno "g" [5] (List.mem_singleton.2 rfl) (List.mem_singleton.2 rfl)

/-! ## Dispatch of the command loop -/

theorem starts_with_exclusive (cl p q : String) (hp : starts_with cl p = true)
    (h1 : starts_with p q = false) (h2 : starts_with q p = false) :
    starts_with cl q = false := by
  cases hq : starts_with cl q with
  | false => rfl
  | true =>
    exfalso
    unfold starts_with at hp hq h1 h2
    rw [List.isPrefixOf_iff_prefix] at hp hq
    rcases List.prefix_or_prefix_of_prefix hp hq with h | h
    · rw [← List.isPrefixOf_iff_prefix, h2] at h
      exact Bool.false_ne_true h
    · rw [← List.isPrefixOf_iff_prefix, h1] at h
      exact Bool.false_ne_true h

theorem ne_of_starts_with (cl p q : String) (hp : starts_with cl p = true)
    (h : starts_with q p = false) : cl ≠ q := by
  intro hcl
  rw [hcl, h] at hp
  exact Bool.false_ne_true hp

theorem command_step_create_group (st : State) (s : Socket) (buffer : String)
    (h : starts_with (strip buffer) "/create_group " = true) :
    command_step st s (some buffer) =
      ((create_group st s (strip (substr_from (strip buffer) 14))).1,
        (create_group st s (strip (substr_from (strip buffer) 14))).2, true) := by
  have e0 := ne_of_starts_with _ _ "" h (by rfl)
  have e1 := ne_of_starts_with _ _ "/exit" h (by rfl)
  have e2 := starts_with_exclusive _ _ "/broadcast " h (by rfl) (by rfl)
  have e3 := starts_with_exclusive _ _ "/msg " h (by rfl) (by rfl)
  simp [command_step, e0, e1, e2, e3, h]

theorem command_step_join_group (st : State) (s : Socket) (buffer : String)
    (h : starts_with (strip buffer) "/join_group " = true) :
    command_step st s (some buffer) =
      ((join_group st s (strip (substr_from (strip buffer) 12))).1,
        (join_group st s (strip (substr_from (strip buffer) 12))).2, true) := by
  have e0 := ne_of_starts_with _ _ "" h (by rfl)
  have e1 := ne_of_starts_with _ _ "/exit" h (by rfl)
  have e2 := starts_with_exclusive _ _ "/broadcast " h (by rfl) (by rfl)
  have e3 := starts_with_exclusive _ _ "/msg " h (by rfl) (by rfl)
  have e4 := starts_with_exclusive _ _ "/create_group " h (by rfl) (by rfl)
  simp [command_step, e0, e1, e2, e3, e4, h]

theorem command_step_leave_group (st : State) (s : Socket) (buffer : String)
    (h : starts_with (strip buffer) "/leave_group " = true) :
    command_step st s (some buffer) =
      ((leave_group st s (strip (substr_from (strip buffer) 13))).1,
        (leave_group st s (strip (substr_from (strip buffer) 13))).2, true) := by
  have e0 := ne_of_starts_with _ _ "" h (by rfl)
  have e1 := ne_of_starts_with _ _ "/exit" h (by rfl)
  have e2 := starts_with_exclusive _ _ "/broadcast " h (by rfl) (by rfl)
  have e3 := starts_with_exclusive _ _ "/msg " h (by rfl) (by rfl)
  have e4 := starts_with_exclusive _ _ "/create_group " h (by rfl) (by rfl)
  have e5 := starts_with_exclusive _ _ "/join_group " h (by rfl) (by rfl)
  simp [command_step, e0, e1, e2, e3, e4, e5, h]

theorem command_step_group_msg (st : State) (s : Socket) (buffer : String)
    (space_pos : Nat)
    (h : starts_with (strip buffer) "/group_msg " = true)
    (hsp : find_char (strip buffer) ' ' 11 = some space_pos) :
    command_step st s (some buffer) =
      ((send_group st s (strip (substr (strip buffer) 11 (space_pos - 11)))
          (strip (substr_from (strip buffer) (space_pos + 1)))).1,
        (send_group st s (strip (substr (strip buffer) 11 (space_pos - 11)))
          (strip (substr_from (strip buffer) (space_pos + 1)))).2, true) := by
  have e0 := ne_of_starts_with _ _ "" h (by rfl)
  have e1 := ne_of_starts_with _ _ "/exit" h (by rfl)
  have e2 := starts_with_exclusive _ _ "/broadcast " h (by rfl) (by rfl)
  have e3 := starts_with_exclusive _ _ "/msg " h (by rfl) (by rfl)
  have e4 := starts_with_exclusive _ _ "/create_group " h (by rfl) (by rfl)
  have e5 := starts_with_exclusive _ _ "/join_group " h (by rfl) (by rfl)
  have e6 := starts_with_exclusive _ _ "/leave_group " h (by rfl) (by rfl)
  simp [command_step, e0, e1, e2, e3, e4, e5, e6, h, hsp]

/-! ## Group commands -/

theorem create_group_of_key (st : State) (s : Socket) (g : String)
    (hg : g ∈ UMap.keys st.chat_groups) :
    create_group st s g =
      (st, [Event.acquire Mutex.groups_lock,
            Event.send s ("Error: Group '" ++ g ++ "' already exists."),
            Event.release Mutex.groups_lock]) := by
  obtain ⟨v, hv⟩ := (UMap.find_isSome_iff st.chat_groups g).2 hg
  simp [create_group, UMap.count_of_find _ _ _ hv, send_to_client]

theorem create_group_of_not_key (st : State) (s : Socket) (g : String)
    (hg : g ∉ UMap.keys st.chat_groups) :
    create_group st s g =
      ({ st with chat_groups := st.chat_groups ++ [(g, [s])] },
        [Event.acquire Mutex.groups_lock,
         Event.send s ("Group '" ++ g ++ "' was successfully created."),
         Event.release Mutex.groups_lock]) := by
  have hn := (UMap.find_eq_none_iff st.chat_groups g).2 hg
  have hc := (UMap.count_eq_zero_iff st.chat_groups g).2 hn
  simp [create_group, hc, UMap.subscript_of_none _ _ _ hn,
    UMap.assign_append_of_none _ _ _ _ hn, set_insert, send_to_client]

theorem join_group_of_not_key (st : State) (s : Socket) (g : String)
    (hg : g ∉ UMap.keys st.chat_groups) :
    join_group st s g =
      (st, [Event.acquire Mutex.groups_lock,
            Event.send s ("Error: No group named '" ++ g ++ "' found."),
            Event.release Mutex.groups_lock]) := by
  have hn := (UMap.find_eq_none_iff st.chat_groups g).2 hg
  have hc := (UMap.count_eq_zero_iff st.chat_groups g).2 hn
  simp [join_group, hc, send_to_client]

theorem join_group_of_find (st : State) (s : Socket) (g : String) (members : List Socket)
    (hg : UMap.find st.chat_groups g = some members) :
    join_group st s g =
      ({ st with chat_groups := UMap.assign st.chat_groups g (set_insert members s) },
        [Event.acquire Mutex.groups_lock,
         Event.send s ("You joined the group '" ++ g ++ "'."),
         Event.release Mutex.groups_lock]) := by
  simp [join_group, UMap.count_of_find _ _ _ hg, UMap.subscript_of_find _ _ _ _ hg,
    send_to_client]

theorem leave_group_of_not_key (st : State) (s : Socket) (g : String)
    (hg : g ∉ UMap.keys st.chat_groups) :
    leave_group st s g =
      (st, [Event.acquire Mutex.groups_lock,
            Event.send s ("Error: Group '" ++ g ++ "' does not exist."),
            Event.release Mutex.groups_lock]) := by
  have hn := (UMap.find_eq_none_iff st.chat_groups g).2 hg
  simp [leave_group, hn, send_to_client]

theorem leave_group_of_non_member (st : State) (s : Socket) (g : String)
    (members : List Socket) (hg : UMap.find st.chat_groups g = some members)
    (hs : s ∉ members) :
    leave_group st s g =
      (st, [Event.acquire Mutex.groups_lock,
            Event.send s ("Error: You were not part of '" ++ g ++ "'."),
            Event.release Mutex.groups_lock]) := by
  simp [leave_group, hg, hs, set_erase_of_not_mem members s hs,
    UMap.assign_of_find _ _ _ hg, send_to_client]

/-- C6: when `g` is already a key of `chat_groups`, the `/create_group` branch
with group name `g` leaves the whole state, `chat_groups` included, as it was
and sends exactly one message, to the issuing socket:
`Error: Group '<g>' already exists.`; and every command line the loop parses as
`/create_group` with that name behaves so. -/
theorem create_group_existing (st : State) (s : Socket) (g : String)
    (hg : g ∈ UMap.keys st.chat_groups) :
    (create_group st s g).1.chat_groups = st.chat_groups
      ∧ (create_group st s g).1 = st
      ∧ sends (create_group st s g).2
          = [(s, "Error: Group '" ++ g ++ "' already exists.")]
      ∧ ∀ buffer : String, starts_with (strip buffer) "/create_group " = true →
          strip (substr_from (strip buffer) 14) = g →
          (command_step st s (some buffer)).1 = st
            ∧ sends (command_step st s (some buffer)).2.1
                = [(s, "Error: Group '" ++ g ++ "' already exists.")] := by
  have h := create_group_of_key st s g hg
  refine ⟨by rw [h], by rw [h], by rw [h]; rfl, ?_⟩
  intro buffer hb hname
  rw [command_step_create_group st s buffer hb, hname, h]
  exact ⟨rfl, rfl⟩

/-- C6 at a concrete state: socket 6 asks for the existing group `g`. -/
theorem create_group_existing_witness :
    "g" ∈ UMap.keys [("g", [(5 : Socket)])]
      ∧ (command_step
          { registered_users := [], connected_clients := [(5, "alice"), (6, "bob")],
            chat_groups := [("g", [5])] } 6 (some "/create_group g\n")).1
        = { registered_users := [], connected_clients := [(5, "alice"), (6, "bob")],
            chat_groups := [("g", [5])] }
      ∧ sends (command_step
          { registered_users := [], connected_clients := [(5, "alice"), (6, "bob")],
            chat_groups := [("g", [5])] } 6 (some "/create_group g\n")).2.1
        = [(6, "Error: Group 'g' already exists.")] :=
  ⟨by decide,
    (create_group_existing
      { registered_users := [], connected_clients := [(5, "alice"), (6, "bob")],
        chat_groups := [("g", [5])] } 6 "g" (by decide)).2.2.2
      "/create_group g\n" (by rfl) (by rfl)⟩

/-- C7: when `g` is not a key of `chat_groups`, the `/create_group` branch with
group name `g` yields a state in which the member set of `g` is exactly `{s}`,
every other group name is mapped as before, the other two tables are
unchanged, and the issuing socket is sent exactly
`Group '<g>' was successfully created.`; and every command line the loop parses
as `/create_group` with that name behaves so. -/
theorem create_group_fresh (st : State) (s : Socket) (g : String)
    (hg : g ∉ UMap.keys st.chat_groups) :
    UMap.find (create_group st s g).1.chat_groups g = some [s]
      ∧ (∀ g' : String, g' ≠ g →
          UMap.find (create_group st s g).1.chat_groups g' = UMap.find st.chat_groups g')
      ∧ (create_group st s g).1.chat_groups = st.chat_groups ++ [(g, [s])]
      ∧ (create_group st s g).1.connected_clients = st.connected_clients
      ∧ (create_group st s g).1.registered_users = st.registered_users
      ∧ sends (create_group st s g).2
          = [(s, "Group '" ++ g ++ "' was successfully created.")]
      ∧ ∀ buffer : String, starts_with (strip buffer) "/create_group " = true →
          strip (substr_from (strip buffer) 14) = g →
          (command_step st s (some buffer)).1 = (create_group st s g).1
            ∧ sends (command_step st s (some buffer)).2.1
                = [(s, "Group '" ++ g ++ "' was successfully created.")] := by
  have h := create_group_of_not_key st s g hg
  have hn := (UMap.find_eq_none_iff st.chat_groups g).2 hg
  refine ⟨?_, ?_, by rw [h], by rw [h], by rw [h], by rw [h]; rfl, ?_⟩
  · rw [h]
    simp [UMap.find_append, hn, UMap.find]
  · intro g' hne
    rw [h]
    have h2 : ¬ g = g' := fun q => hne q.symm
    simp only [UMap.find_append, UMap.find, h2, if_false]
    cases UMap.find st.chat_groups g' <;> rfl
  · intro buffer hb hname
    rw [command_step_create_group st s buffer hb, hname, h]
    exact ⟨rfl, rfl⟩

/-- C7 at a concrete state: socket 6 creates the new group `team`. -/
theorem create_group_fresh_witness :
    "team" ∉ UMap.keys [("g", [(5 : Socket)])]
      ∧ (command_step
          { registered_users := [], connected_clients := [(5, "alice"), (6, "bob")],
            chat_groups := [("g", [5])] } 6 (some "/create_group team\n")).1.chat_groups
        = [("g", [5]), ("team", [6])]
      ∧ sends (command_step
          { registered_users := [], connected_clients := [(5, "alice"), (6, "bob")],
            chat_groups := [("g", [5])] } 6 (some "/create_group team\n")).2.1
        = [(6, "Group 'team' was successfully created.")] :=
  ⟨by decide, by rfl,
    ((create_group_fresh
      { registered_users := [], connected_clients := [(5, "alice"), (6, "bob")],
        chat_groups := [("g", [5])] } 6 "team" (by decide)).2.2.2.2.2.2
      "/create_group team\n" (by rfl) (by rfl)).2⟩

/-- C9: when `g` exists and `s` is not in its member set, the `/leave_group`
branch with group name `g` leaves the whole state, every member set included,
as it was and sends the issuing socket exactly
`Error: You were not part of '<g>'.`; and every command line the loop parses as
`/leave_group` with that name behaves so. -/
theorem leave_group_non_member (st : State) (s : Socket) (g : String)
    (members : List Socket) (hg : UMap.find st.chat_groups g = some members)
    (hs : s ∉ members) :
    (leave_group st s g).1.chat_groups = st.chat_groups
      ∧ (leave_group st s g).1 = st
      ∧ sends (leave_group st s g).2
          = [(s, "Error: You were not part of '" ++ g ++ "'.")]
      ∧ ∀ buffer : String, starts_with (strip buffer) "/leave_group " = true →
          strip (substr_from (strip buffer) 13) = g →
          (command_step st s (some buffer)).1 = st
            ∧ sends (command_step st s (some buffer)).2.1
                = [(s, "Error: You were not part of '" ++ g ++ "'.")] := by
  have h := leave_group_of_non_member st s g members hg hs
  refine ⟨by rw [h], by rw [h], by rw [h]; rfl, ?_⟩
  intro buffer hb hname
  rw [command_step_leave_group st s buffer hb, hname, h]
  exact ⟨rfl, rfl⟩

/-- C9 at a concrete state: socket 6 leaves the group `g` it never joined. -/
theorem leave_group_non_member_witness :
    UMap.find [("g", [(5 : Socket)])] "g" = some [5]
      ∧ (6 : Socket) ∉ [(5 : Socket)]
      ∧ (command_step
          { registered_users := [], connected_clients := [(5, "alice"), (6, "bob")],
            chat_groups := [("g", [5])] } 6 (some "/leave_group g\n")).1
        = { registered_users := [], connected_clients := [(5, "alice"), (6, "bob")],
            chat_groups := [("g", [5])] }
      ∧ sends (command_step
          { registered_users := [], connected_clients := [(5, "alice"), (6, "bob")],
            chat_groups := [("g", [5])] } 6 (some "/leave_group g\n")).2.1
        = [(6, "Error: You were not part of 'g'.")] :=
  ⟨by rfl, by decide,
    (leave_group_non_member
      { registered_users := [], connected_clients := [(5, "alice"), (6, "bob")],
        chat_groups := [("g", [5])] } 6 "g" [5] (by rfl) (by decide)).2.2.2
      "/leave_group g\n" (by rfl) (by rfl)⟩

/-- C10: when `g` exists, handling `/join_group g` from `s` twice in a row
yields the same state as handling it once; after one join the member set of
`g` contains `s`, contains any other socket exactly when it did before, and
every other group name is mapped as before; and two successive command lines
the loop parses as `/join_group` with that name give the same state as the
first alone. -/
theorem join_group_idempotent (st : State) (s : Socket) (g : String)
    (members : List Socket) (hg : UMap.find st.chat_groups g = some members) :
    (join_group (join_group st s g).1 s g).1 = (join_group st s g).1
      ∧ (∃ members' : List Socket,
          UMap.find (join_group st s g).1.chat_groups g = some members'
          ∧ s ∈ members'
          ∧ ∀ x : Socket, x ≠ s → (x ∈ members' ↔ x ∈ members))
      ∧ (∀ g' : String, g' ≠ g →
          UMap.find (join_group st s g).1.chat_groups g' = UMap.find st.chat_groups g')
      ∧ ∀ buffer : String, starts_with (strip buffer) "/join_group " = true →
          strip (substr_from (strip buffer) 12) = g →
          (command_step (command_step st s (some buffer)).1 s (some buffer)).1
            = (command_step st s (some buffer)).1 := by
  have h := join_group_of_find st s g members hg
  have hf : UMap.find (join_group st s g).1.chat_groups g = some (set_insert members s) := by
    rw [h]; exact UMap.find_assign_self _ _ _
  have h2 := join_group_of_find (join_group st s g).1 s g (set_insert members s) hf
  have hidem : (join_group (join_group st s g).1 s g).1 = (join_group st s g).1 := by
    rw [h2, set_insert_idem]
    rw [h]
    simp [UMap.assign_assign]
  refine ⟨hidem, ⟨set_insert members s, hf, ?_, ?_⟩, ?_, ?_⟩
  · exact (mem_set_insert members s s).2 (Or.inl rfl)
  · intro x hx
    rw [mem_set_insert]
    constructor
    · rintro (hxs | hm)
      · exact absurd hxs hx
      · exact hm
    · intro hm; exact Or.inr hm
  · intro g' hne
    rw [h]
    exact UMap.find_assign_ne _ _ _ _ hne
  · intro buffer hb hname
    rw [command_step_join_group st s buffer hb, hname]
    rw [command_step_join_group _ s buffer hb, hname]
    exact hidem

/-- C10 at a concrete state: socket 6 joins the group `g` twice. -/
theorem join_group_idempotent_witness :
    UMap.find [("g", [(5 : Socket)])] "g" = some [5]
      ∧ (command_step
          { registered_users := [], connected_clients := [(5, "alice"), (6, "bob")],
            chat_groups := [("g", [5])] } 6 (some "/join_group g\n")).1.chat_groups
        = [("g", [5, 6])]
      ∧ (command_step (command_step
          { registered_users := [], connected_clients := [(5, "alice"), (6, "bob")],
            chat_groups := [("g", [5])] } 6 (some "/join_group g\n")).1
            6 (some "/join_group g\n")).1
        = (command_step
          { registered_users := [], connected_clients := [(5, "alice"), (6, "bob")],
            chat_groups := [("g", [5])] } 6 (some "/join_group g\n")).1 :=
  ⟨by rfl, by rfl,
    (join_group_idempotent
      { registered_users := [], connected_clients := [(5, "alice"), (6, "bob")],
        chat_groups := [("g", [5])] } 6 "g" [5] (by rfl)).2.2.2
      "/join_group g\n" (by rfl) (by rfl)⟩

/-! ## Reachable states -/

/-- C3, code defect: with the credentials `alice:pa` and `bob:pb`, alice logs
in on socket 5, bob on socket 7, and both leave.  Each `disconnect_client`
erases its entry and then puts the socket back under the empty name (the
`operator[]` read in `broadcast_all`), so the reachable registry is
`5 ↦ ""`, `7 ↦ ""`: two distinct sockets mapped to the same username. -/
theorem stale_entries_share_a_name :
    ((Server.init (read_user_data ["alice:pa", "bob:pb"])).run
        [Action.connect 5 (some "alice\n") (some "pa\n"),
         Action.connect 7 (some "bob\n") (some "pb\n"),
         Action.receive 5 (some "/exit\n"),
         Action.receive 7 none]).st.connected_clients = [(5, ""), (7, "")]
    ∧ ∃ sv : Server, Reachable (read_user_data ["alice:pa", "bob:pb"]) sv
        ∧ ¬ unique_usernames sv.st := by
  refine ⟨by rfl, _, ⟨[Action.connect 5 (some "alice\n") (some "pa\n"),
         Action.connect 7 (some "bob\n") (some "pb\n"),
         Action.receive 5 (some "/exit\n"),
         Action.receive 7 none], rfl⟩, ?_⟩
  intro huniq
  have h57 : (5 : Socket) = 7 :=
    huniq 5 7 "" (List.mem_cons_self _ _)
      (List.mem_cons_of_mem _ (List.mem_cons_self _ _))
  exact absurd h57 (by decide)

/-- C4, code defect: with the credentials file `:pw` a client logs in under
the empty username on socket 5, creates group `g` and sends `/exit`.
`disconnect_client` erases the registry entry but, finding `departing_user`
empty, skips the group cleanup: the reachable state has socket 5 in the member
set of `g` and no key 5 in `connected_clients`. -/
theorem empty_name_leaves_dangling_member :
    ((Server.init (read_user_data [":pw"])).run
        [Action.connect 5 (some "\n") (some "pw\n"),
         Action.receive 5 (some "/create_group g\n"),
         Action.receive 5 (some "/exit\n")]).st
      = { registered_users := [("", "pw")],
          connected_clients := [],
          chat_groups := [("g", [5])] }
    ∧ ∃ sv : Server, Reachable (read_user_data [":pw"]) sv
        ∧ ¬ no_dangling_members sv.st := by
  refine ⟨by rfl, _, ⟨[Action.connect 5 (some "\n") (some "pw\n"),
         Action.receive 5 (some "/create_group g\n"),
         Action.receive 5 (some "/exit\n")], rfl⟩, ?_⟩
  intro hno
  have h5 : (5 : Socket) ∈ UMap.keys ([] : UMap Socket String) :=
    hno "g" [5] 5 (List.mem_singleton.2 rfl) (List.mem_singleton.2 rfl)
  simp [UMap.keys] at h5

/-! ## Locking -/

theorem lock_discipline_sends (f : Mutex → Mutex → Bool) (held : List Mutex)
    (evs rest : List Event) (h : ∀ e ∈ evs, ∃ s m, e = Event.send s m) :
    lock_discipline f held (evs ++ rest) = lock_discipline f held rest := by
  induction evs with
  | nil => rfl
  | cons e es ih =>
    obtain ⟨s, m, rfl⟩ := h e (List.mem_cons_self _ _)
    have ih2 := ih (fun e he => h e (List.mem_cons_of_mem _ he))
    simpa [lock_discipline] using ih2

theorem lock_discipline_mono (f f' : Mutex → Mutex → Bool)
    (hf : ∀ h m, f h m = true → f' h m = true) (held : List Mutex) (evs : List Event)
    (h : lock_discipline f held evs = true) : lock_discipline f' held evs = true := by
  induction evs generalizing held with
  | nil => exact h
  | cons e es ih =>
    cases e with
    | send s m => exact ih held h
    | close s => exact ih held h
    | acquire m =>
      simp only [lock_discipline, Bool.and_eq_true, List.all_eq_true] at h ⊢
      exact ⟨⟨h.1.1, fun x hx => hf x m (h.1.2 x hx)⟩, ih _ h.2⟩
    | release m =>
      simp only [lock_discipline, Bool.and_eq_true] at h ⊢
      exact ⟨h.1, ih _ h.2⟩

theorem groups_then_clients_of_never_nested (evs : List Event)
    (h : never_nested evs = true) : groups_then_clients evs = true :=
  lock_discipline_mono _ _ (fun _ _ q => absurd q Bool.false_ne_true) [] evs h

/-- One mutex taken, only messages sent, the mutex released. -/
theorem lock_discipline_guarded (f : Mutex → Mutex → Bool) (held : List Mutex) (m : Mutex)
    (evs rest : List Event) (h : ∀ e ∈ evs, ∃ s t, e = Event.send s t)
    (hm : held.contains m = false) :
    lock_discipline f held ([Event.acquire m] ++ evs ++ [Event.release m] ++ rest)
      = (held.all (fun x => f x m) && lock_discipline f held rest) := by
  have hfilter : (m :: held).filter (fun x => decide (x ≠ m)) = held := by
    have hnot : m ∉ held := by simpa using hm
    simp only [List.filter_cons, ne_eq, not_true_eq_false, decide_False, Bool.false_eq_true,
      if_false]
    rw [List.filter_eq_self]
    intro a ha
    have : a ≠ m := fun q => hnot (q ▸ ha)
    simp [this]
  have e1 : [Event.acquire m] ++ evs ++ [Event.release m] ++ rest
      = Event.acquire m :: (evs ++ (Event.release m :: rest)) := by simp
  rw [e1]
  simp only [lock_discipline, hm, Bool.not_false, Bool.true_and]
  rw [lock_discipline_sends f _ evs _ h]
  simp only [lock_discipline, hfilter]
  simp

theorem broadcast_all_trace (st : State) (msg : String) (s : Socket) :
    ∃ evs : List Event, (∀ e ∈ evs, ∃ d t, e = Event.send d t)
      ∧ (broadcast_all st msg s).2
          = [Event.acquire Mutex.clients_lock] ++ evs ++ [Event.release Mutex.clients_lock] := by
  refine ⟨_, ?_, rfl⟩
  intro e he
  simp only [List.mem_flatMap] at he
  obtain ⟨x, _, hx⟩ := he
  split at hx
  · simp only [send_to_client, List.mem_singleton] at hx
    exact ⟨_, _, hx⟩
  · simp at hx

theorem never_nested_of_guarded (m : Mutex) (evs : List Event)
    (h : ∀ e ∈ evs, ∃ s t, e = Event.send s t) :
    never_nested ([Event.acquire m] ++ evs ++ [Event.release m]) = true := by
  have := lock_discipline_guarded (fun _ _ => false) [] m evs [] h rfl
  simp only [List.append_nil] at this
  unfold never_nested
  rw [this]
  rfl

theorem never_nested_broadcast_all (st : State) (msg : String) (s : Socket) :
    never_nested (broadcast_all st msg s).2 = true := by
  obtain ⟨evs, h, e⟩ := broadcast_all_trace st msg s
  rw [e]
  exact never_nested_of_guarded _ evs h

theorem never_nested_send_private (st : State) (s : Socket) (recipient content : String) :
    never_nested (send_private st s recipient content).2 = true := by
  unfold send_private
  split <;> rfl

theorem never_nested_send_group (st : State) (s : Socket) (g content : String) :
    never_nested (send_group st s g content).2 = true := by
  unfold send_group
  split
  · rfl
  · split
    · rfl
    · simp only [List.append_assoc]
      rw [← List.append_assoc, ← List.append_assoc]
      rw [List.append_assoc _ _ (send_to_client _ _)]
      apply never_nested_of_guarded
      intro e he
      simp only [List.mem_append, List.mem_flatMap] at he
      rcases he with ⟨x, _, hx⟩ | he
      · split at hx
        · simp only [send_to_client, List.mem_singleton] at hx
          exact ⟨_, _, hx⟩
        · simp at hx
      · simp only [send_to_client, List.mem_singleton] at he
        exact ⟨_, _, he⟩

theorem never_nested_create_group (st : State) (s : Socket) (g : String) :
    never_nested (create_group st s g).2 = true := by
  unfold create_group
  split <;> rfl

theorem never_nested_join_group (st : State) (s : Socket) (g : String) :
    never_nested (join_group st s g).2 = true := by
  unfold join_group
  split <;> rfl

theorem never_nested_leave_group (st : State) (s : Socket) (g : String) :
    never_nested (leave_group st s g).2 = true := by
  unfold leave_group
  split
  · split <;> rfl
  · rfl

theorem never_nested_list_groups (st : State) (s : Socket) :
    never_nested (list_groups st s).2 = true := by
  unfold list_groups
  split <;> rfl

theorem never_nested_list_members (st : State) (s : Socket) (g : String) :
    never_nested (list_members st s g).2 = true := by
  unfold list_members
  split <;> rfl

theorem never_nested_client_session_login (st : State) (s : Socket)
    (recv1 recv2 : Option String) :
    never_nested (client_session_login st s recv1 recv2).2.1 = true := by
  unfold client_session_login
  cases recv1 with
  | none => rfl
  | some buffer1 =>
    cases recv2 with
    | none => rfl
    | some buffer2 =>
      simp only []
      split
      · rfl
      · split
        · rfl
        · obtain ⟨evs, h, e⟩ := broadcast_all_trace
            { st with connected_clients :=
                UMap.assign st.connected_clients s (strip buffer1) }
            (strip buffer1 ++ " joined the chat.") s
          rw [e]
          have := never_nested_of_guarded Mutex.clients_lock evs h
          simpa [never_nested, lock_discipline, send_to_client] using this

/-- The trace of `disconnect_client` for a socket registered under a non-empty
username: `clients_lock` is taken and released, then `groups_lock` is taken,
and `clients_lock` is taken again (inside `broadcast_all`) before `groups_lock`
is released. -/
theorem disconnect_client_trace_registered (st : State) (s : Socket) (u : String)
    (h : UMap.find st.connected_clients s = some u) (hu : u ≠ "") :
    ∃ evs : List Event, (∀ e ∈ evs, ∃ d t, e = Event.send d t)
      ∧ (disconnect_client st s).2
          = [Event.acquire Mutex.clients_lock, Event.release Mutex.clients_lock,
              Event.acquire Mutex.groups_lock]
            ++ ([Event.acquire Mutex.clients_lock] ++ evs
                  ++ [Event.release Mutex.clients_lock])
            ++ [Event.release Mutex.groups_lock, Event.close s] := by
  have hc : UMap.count st.connected_clients s > 0 := by
    rw [UMap.count_of_find _ _ _ h]; decide
  have hsub := UMap.subscript_of_find st.connected_clients s u "" h
  obtain ⟨evs, hev, e⟩ := broadcast_all_trace
    { registered_users := st.registered_users,
      connected_clients := UMap.erase st.connected_clients s,
      chat_groups := st.chat_groups.map (fun gp => (gp.1, set_erase gp.2 s)) }
    (u ++ " left the chat.") s
  refine ⟨evs, hev, ?_⟩
  rw [← e]
  simp [disconnect_client, hc, hsub, hu]

theorem groups_then_clients_disconnect_client (st : State) (s : Socket) :
    groups_then_clients (disconnect_client st s).2 = true := by
  cases h : UMap.find st.connected_clients s with
  | none => rw [disconnect_client_absent st s h]; rfl
  | some u =>
    by_cases hu : u = ""
    · subst hu
      rw [disconnect_client_empty_name st s h]; rfl
    · obtain ⟨evs, hev, e⟩ := disconnect_client_trace_registered st s u h hu
      rw [e]
      have key : lock_discipline
          (fun h m => decide (h = Mutex.groups_lock ∧ m = Mutex.clients_lock))
          [Mutex.clients_lock, Mutex.groups_lock]
          (evs ++ [Event.release Mutex.clients_lock, Event.release Mutex.groups_lock,
            Event.close s]) = true := by
        rw [lock_discipline_sends _ _ evs _ hev]
        rfl
      simp only [List.append_assoc, List.cons_append, List.nil_append]
      exact key

theorem never_nested_disconnect_client_iff (st : State) (s : Socket) :
    never_nested (disconnect_client st s).2 = true
      ↔ ¬ ∃ u : String, UMap.find st.connected_clients s = some u ∧ u ≠ "" := by
  cases h : UMap.find st.connected_clients s with
  | none =>
    rw [disconnect_client_absent st s h]
    simp
    rfl
  | some u =>
    by_cases hu : u = ""
    · subst hu
      rw [disconnect_client_empty_name st s h]
      simp
      rfl
    · obtain ⟨evs, hev, e⟩ := disconnect_client_trace_registered st s u h hu
      rw [e]
      simp [hu, never_nested, lock_discipline]

/-- Case analysis on one iteration of the command loop: a property that holds
of the result of every branch holds of `command_step`. -/
theorem command_step_cases (P : State × List Event × Bool → Prop) (st : State)
    (s : Socket) (received : Option String)
    (h_skip : P (st, [], true))
    (h_disconnect : P ((disconnect_client st s).1, (disconnect_client st s).2, false))
    (h_broadcast : ∀ msg : String,
      P ((broadcast_all st msg s).1, (broadcast_all st msg s).2, true))
    (h_private : ∀ recp msg : String,
      P ((send_private st s recp msg).1, (send_private st s recp msg).2, true))
    (h_reply : ∀ msg : String, P (st, send_to_client s msg, true))
    (h_create : ∀ g : String,
      P ((create_group st s g).1, (create_group st s g).2, true))
    (h_join : ∀ g : String, P ((join_group st s g).1, (join_group st s g).2, true))
    (h_leave : ∀ g : String, P ((leave_group st s g).1, (leave_group st s g).2, true))
    (h_group : ∀ g msg : String,
      P ((send_group st s g msg).1, (send_group st s g msg).2, true))
    (h_list_groups : P ((list_groups st s).1, (list_groups st s).2, true))
    (h_list_members : ∀ g : String,
      P ((list_members st s g).1, (list_members st s g).2, true)) :
    P (command_step st s received) := by
  cases received with
  | none => exact h_disconnect
  | some buffer =>
    by_cases c0 : strip buffer = ""
    · simpa [command_step, c0] using h_skip
    by_cases c1 : strip buffer = "/exit"
    · simpa [command_step, c0, c1] using h_disconnect
    by_cases c2 : starts_with (strip buffer) "/broadcast " = true
    · simpa [command_step, c0, c1, c2] using h_broadcast _
    by_cases c3 : starts_with (strip buffer) "/msg " = true
    · cases c3b : find_char (strip buffer) ' ' 5 with
      | none => simpa [command_step, c0, c1, c2, c3, c3b] using h_reply _
      | some space_loc => simpa [command_step, c0, c1, c2, c3, c3b] using h_private _ _
    by_cases c4 : starts_with (strip buffer) "/create_group " = true
    · simpa [command_step, c0, c1, c2, c3, c4] using h_create _
    by_cases c5 : starts_with (strip buffer) "/join_group " = true
    · simpa [command_step, c0, c1, c2, c3, c4, c5] using h_join _
    by_cases c6 : starts_with (strip buffer) "/leave_group " = true
    · simpa [command_step, c0, c1, c2, c3, c4, c5, c6] using h_leave _
    by_cases c7 : starts_with (strip buffer) "/group_msg " = true
    · cases c7b : find_char (strip buffer) ' ' 11 with
      | none => simpa [command_step, c0, c1, c2, c3, c4, c5, c6, c7, c7b] using h_reply _
      | some space_pos =>
        simpa [command_step, c0, c1, c2, c3, c4, c5, c6, c7, c7b] using h_group _ _
    by_cases c8 : strip buffer = "/list_groups"
    · simpa [command_step, c0, c1, c2, c3, c4, c5, c6, c7, c8] using h_list_groups
    by_cases c9 : starts_with (strip buffer) "/list_members " = true
    · simpa [command_step, c0, c1, c2, c3, c4, c5, c6, c7, c8, c9] using h_list_members _
    simpa [command_step, c0, c1, c2, c3, c4, c5, c6, c7, c8, c9] using h_reply _

theorem command_step_never_nested_or_disconnect (st : State) (s : Socket)
    (received : Option String) :
    never_nested (command_step st s received).2.1 = true
      ∨ command_step st s received
          = ((disconnect_client st s).1, (disconnect_client st s).2, false) := by
  apply command_step_cases
    (fun r => never_nested r.2.1 = true
      ∨ r = ((disconnect_client st s).1, (disconnect_client st s).2, false))
  · left; rfl
  · right; rfl
  · intro msg; left; exact never_nested_broadcast_all _ _ _
  · intro recp msg; left; exact never_nested_send_private _ _ _ _
  · intro msg; left; rfl
  · intro g; left; exact never_nested_create_group _ _ _
  · intro g; left; exact never_nested_join_group _ _ _
  · intro g; left; exact never_nested_leave_group _ _ _
  · intro g msg; left; exact never_nested_send_group _ _ _ _
  · left; exact never_nested_list_groups _ _
  · intro g; left; exact never_nested_list_members _ _ _

theorem groups_then_clients_command_step (st : State) (s : Socket)
    (received : Option String) :
    groups_then_clients (command_step st s received).2.1 = true := by
  rcases command_step_never_nested_or_disconnect st s received with h | h
  · exact groups_then_clients_of_never_nested _ h
  · rw [h]
    exact groups_then_clients_disconnect_client st s

/-- C5 as stated fails: in `disconnect_client 5` for the registry
`5 ↦ "alice"` the trace takes `clients_lock` (in `broadcast_all`) between the
acquisition and the release of `groups_lock`. -/
theorem disconnect_client_nests_locks :
    (disconnect_client
        { registered_users := [("alice", "pa")],
          connected_clients := [(5, "alice")],
          chat_groups := [] } 5).2
      = [Event.acquire Mutex.clients_lock, Event.release Mutex.clients_lock,
         Event.acquire Mutex.groups_lock,
         Event.acquire Mutex.clients_lock, Event.release Mutex.clients_lock,
         Event.release Mutex.groups_lock, Event.close 5]
    ∧ never_nested (disconnect_client
        { registered_users := [("alice", "pa")],
          connected_clients := [(5, "alice")],
          chat_groups := [] } 5).2 = false :=
  ⟨by rfl, by rfl⟩

/-- C5, amended: no path acquires `groups_lock` while `clients_lock` is held,
none acquires a mutex it already holds, and every path releases what it
acquired.  The three router functions, the login steps and every iteration of
the command loop that does not call `disconnect_client` hold at most one mutex
at a time.  `disconnect_client` holds more than one mutex exactly when the
socket is registered under a non-empty username: it then acquires
`clients_lock` inside `broadcast_all` while it still holds `groups_lock`. -/
theorem lock_order (st : State) (s : Socket) (msg recipient g content : String)
    (recv1 recv2 received : Option String) :
    never_nested (broadcast_all st msg s).2 = true
      ∧ never_nested (send_private st s recipient content).2 = true
      ∧ never_nested (send_group st s g content).2 = true
      ∧ never_nested (client_session_login st s recv1 recv2).2.1 = true
      ∧ (never_nested (command_step st s received).2.1 = true
          ∨ command_step st s received
              = ((disconnect_client st s).1, (disconnect_client st s).2, false))
      ∧ groups_then_clients (command_step st s received).2.1 = true
      ∧ groups_then_clients (disconnect_client st s).2 = true
      ∧ (never_nested (disconnect_client st s).2 = true
          ↔ ¬ ∃ u : String, UMap.find st.connected_clients s = some u ∧ u ≠ "") :=
  ⟨never_nested_broadcast_all st msg s,
    never_nested_send_private st s recipient content,
    never_nested_send_group st s g content,
    never_nested_client_session_login st s recv1 recv2,
    command_step_never_nested_or_disconnect st s received,
    groups_then_clients_command_step st s received,
    groups_then_clients_disconnect_client st s,
    never_nested_disconnect_client_iff st s⟩

/-! ## What each step does to the client registry -/

theorem UMap.subscript_entries {κ : Type} [DecidableEq κ] (m : UMap κ String) (k : κ) :
    ∀ e ∈ (UMap.subscript m k "").2, e ∈ m ∨ e.2 = "" := by
  intro e he
  unfold UMap.subscript at he
  cases h : UMap.find m k with
  | some v => rw [h] at he; exact Or.inl he
  | none =>
    rw [h] at he
    simp only [List.mem_append, List.mem_singleton] at he
    rcases he with he | he
    · exact Or.inl he
    · right; rw [he]

theorem broadcast_all_entries (st : State) (msg : String) (s : Socket) :
    ∀ e ∈ (broadcast_all st msg s).1.connected_clients,
      e ∈ st.connected_clients ∨ e.2 = "" :=
  UMap.subscript_entries st.connected_clients s

theorem send_private_entries (st : State) (s : Socket) (recp msg : String) :
    ∀ e ∈ (send_private st s recp msg).1.connected_clients,
      e ∈ st.connected_clients ∨ e.2 = "" := by
  unfold send_private
  split
  · exact UMap.subscript_entries st.connected_clients s
  · intro e he; exact Or.inl he

theorem send_group_entries (st : State) (s : Socket) (g msg : String) :
    ∀ e ∈ (send_group st s g msg).1.connected_clients,
      e ∈ st.connected_clients ∨ e.2 = "" := by
  unfold send_group
  split
  · intro e he; exact Or.inl he
  · split
    · intro e he; exact Or.inl he
    · exact UMap.subscript_entries st.connected_clients s

theorem list_members_fold_entries (members : List Socket) (acc : String × UMap Socket String) :
    ∀ e ∈ (members.foldl
        (fun (acc : String × UMap Socket String) sock =>
          let q := UMap.subscript acc.2 sock ""
          (acc.1 ++ "  - " ++ q.1 ++ "\n", q.2)) acc).2,
      e ∈ acc.2 ∨ e.2 = "" := by
  induction members generalizing acc with
  | nil => intro e he; exact Or.inl he
  | cons x xs ih =>
    intro e he
    simp only [List.foldl_cons] at he
    rcases ih _ e he with h | h
    · exact UMap.subscript_entries acc.2 x e h
    · exact Or.inr h

theorem list_members_entries (st : State) (s : Socket) (g : String) :
    ∀ e ∈ (list_members st s g).1.connected_clients,
      e ∈ st.connected_clients ∨ e.2 = "" := by
  unfold list_members
  split
  · intro e he; exact Or.inl he
  · exact list_members_fold_entries _ _

theorem disconnect_client_entries (st : State) (s : Socket) :
    ∀ e ∈ (disconnect_client st s).1.connected_clients,
      e ∈ st.connected_clients ∨ e.2 = "" := by
  cases h : UMap.find st.connected_clients s with
  | none => rw [disconnect_client_absent st s h]; intro e he; exact Or.inl he
  | some u =>
    by_cases hu : u = ""
    · subst hu
      rw [disconnect_client_empty_name st s h]
      intro e he
      exact Or.inl (List.mem_filter.1 he).1
    · rw [disconnect_client_registered st s u h hu]
      intro e he
      simp only [List.mem_append, List.mem_singleton] at he
      rcases he with he | he
      · exact Or.inl (List.mem_filter.1 he).1
      · right; rw [he]

theorem create_group_clients (st : State) (s : Socket) (g : String) :
    (create_group st s g).1.connected_clients = st.connected_clients := by
  unfold create_group
  split <;> rfl

theorem join_group_clients (st : State) (s : Socket) (g : String) :
    (join_group st s g).1.connected_clients = st.connected_clients := by
  unfold join_group
  split <;> rfl

theorem leave_group_clients (st : State) (s : Socket) (g : String) :
    (leave_group st s g).1.connected_clients = st.connected_clients := by
  unfold leave_group
  split
  · split <;> rfl
  · rfl

theorem list_groups_state (st : State) (s : Socket) : (list_groups st s).1 = st := by
  unfold list_groups
  split <;> rfl

/-- An iteration of the command loop adds to the client registry only entries
with an empty username. -/
theorem command_step_entries (st : State) (s : Socket) (received : Option String) :
    ∀ e ∈ (command_step st s received).1.connected_clients,
      e ∈ st.connected_clients ∨ e.2 = "" := by
  apply command_step_cases
    (fun r => ∀ e ∈ r.1.connected_clients, e ∈ st.connected_clients ∨ e.2 = "")
  · intro e he; exact Or.inl he
  · exact disconnect_client_entries st s
  · intro msg; exact broadcast_all_entries st msg s
  · intro recp msg; exact send_private_entries st s recp msg
  · intro msg e he; exact Or.inl he
  · intro g e he; rw [create_group_clients] at he; exact Or.inl he
  · intro g e he; rw [join_group_clients] at he; exact Or.inl he
  · intro g e he; rw [leave_group_clients] at he; exact Or.inl he
  · intro g msg; exact send_group_entries st s g msg
  · intro e he; rw [list_groups_state] at he; exact Or.inl he
  · intro g; exact list_members_entries st s g

theorem UMap.assign_entries {κ ν : Type} [DecidableEq κ] (m : UMap κ ν) (k : κ) (v : ν) :
    ∀ e ∈ UMap.assign m k v, e ∈ m ∨ e = (k, v) := by
  induction m with
  | nil =>
    intro e he
    simp only [UMap.assign, List.mem_singleton] at he
    exact Or.inr he
  | cons x rest ih =>
    obtain ⟨k', v'⟩ := x
    intro e he
    by_cases hk : k' = k
    · simp only [UMap.assign, hk, if_true, List.mem_cons] at he
      rcases he with he | he
      · exact Or.inr he
      · exact Or.inl (List.mem_cons_of_mem _ he)
    · simp only [UMap.assign, hk, if_false, List.mem_cons] at he
      rcases he with he | he
      · left; rw [he]; exact List.mem_cons_self _ _
      · rcases ih e he with h | h
        · exact Or.inl (List.mem_cons_of_mem _ h)
        · exact Or.inr h

/-- The login steps add to the client registry only entries with an empty
username and, on success, the entry of the new session, whose username no
entry carried before. -/
theorem client_session_login_entries (st : State) (s : Socket)
    (recv1 recv2 : Option String) :
    ∀ e ∈ (client_session_login st s recv1 recv2).1.connected_clients,
      e ∈ st.connected_clients ∨ e.2 = ""
        ∨ (e.1 = s ∧ ∀ e' ∈ st.connected_clients, e'.2 ≠ e.2) := by
  unfold client_session_login
  cases recv1 with
  | none => intro e he; exact Or.inl he
  | some buffer1 =>
    cases recv2 with
    | none => intro e he; exact Or.inl he
    | some buffer2 =>
      simp only []
      split
      · intro e he; exact Or.inl he
      · split
        · intro e he; exact Or.inl he
        · rename_i hany
          intro e he
          rcases broadcast_all_entries
            { st with connected_clients :=
                UMap.assign st.connected_clients s (strip buffer1) }
            (strip buffer1 ++ " joined the chat.") s e he with h | h
          · rcases UMap.assign_entries _ _ _ e h with h2 | h2
            · exact Or.inl h2
            · right; right
              rw [h2]
              refine ⟨rfl, ?_⟩
              intro e' he' heq
              apply hany
              simp only [List.any_eq_true, decide_eq_true_eq]
              exact ⟨e', he', heq⟩
          · exact Or.inr (Or.inl h)

/-! ## Usernames of registered sessions -/

theorem unique_nonempty_of_entries (st st' : State)
    (h : ∀ e ∈ st'.connected_clients, e ∈ st.connected_clients ∨ e.2 = "")
    (hu : unique_nonempty_usernames st) : unique_nonempty_usernames st' := by
  intro s1 s2 u hne h1 h2
  rcases h _ h1 with a1 | a1
  · rcases h _ h2 with a2 | a2
    · exact hu s1 s2 u hne a1 a2
    · exact absurd a2 hne
  · exact absurd a1 hne

theorem unique_nonempty_client_session_login (st : State) (s : Socket)
    (recv1 recv2 : Option String) (hu : unique_nonempty_usernames st) :
    unique_nonempty_usernames (client_session_login st s recv1 recv2).1 := by
  intro s1 s2 u hne h1 h2
  have e1 := client_session_login_entries st s recv1 recv2 _ h1
  have e2 := client_session_login_entries st s recv1 recv2 _ h2
  rcases e1 with a1 | a1 | ⟨a1, b1⟩
  · rcases e2 with a2 | a2 | ⟨a2, b2⟩
    · exact hu s1 s2 u hne a1 a2
    · exact absurd a2 hne
    · exact absurd rfl (b2 (s1, u) a1)
  · exact absurd a1 hne
  · rcases e2 with a2 | a2 | ⟨a2, b2⟩
    · exact absurd rfl (b1 (s2, u) a2)
    · exact absurd a2 hne
    · exact a1.trans a2.symm

theorem unique_nonempty_step (sv : Server) (a : Action)
    (hu : unique_nonempty_usernames sv.st) :
    unique_nonempty_usernames (sv.step a).1.st := by
  cases a with
  | connect s recv1 recv2 =>
    by_cases hs : s ∈ sv.active
    · simpa [Server.step, hs] using hu
    · simpa [Server.step, hs] using
        unique_nonempty_client_session_login sv.st s recv1 recv2 hu
  | receive s received =>
    by_cases hs : s ∈ sv.active
    · simpa [Server.step, hs] using
        unique_nonempty_of_entries sv.st _ (command_step_entries sv.st s received) hu
    · simpa [Server.step, hs] using hu

theorem unique_nonempty_run (actions : List Action) (sv : Server)
    (hu : unique_nonempty_usernames sv.st) :
    unique_nonempty_usernames (sv.run actions).st := by
  induction actions generalizing sv with
  | nil => exact hu
  | cons a rest ih =>
    unfold Server.run
    simp only [List.foldl_cons]
    exact ih _ (unique_nonempty_step sv a hu)

/-- In every reachable state, two distinct sockets of the client registry never
carry the same non-empty username: the login check keeps the names of
registered sessions apart, and the only entries the other steps add carry the
empty string. -/
theorem reachable_unique_nonempty_usernames (users : UMap String String) (sv : Server)
    (h : Reachable users sv) : unique_nonempty_usernames sv.st := by
  obtain ⟨actions, rfl⟩ := h
  apply unique_nonempty_run
  intro s1 s2 u _ h1
  simp [Server.init] at h1

/-! ## Members of groups are live sessions -/

theorem UMap.find_erase_ne {κ ν : Type} [DecidableEq κ] (m : UMap κ ν) (k k' : κ)
    (hne : k' ≠ k) : UMap.find (UMap.erase m k) k' = UMap.find m k' := by
  induction m with
  | nil => rfl
  | cons e rest ih =>
    obtain ⟨k0, v0⟩ := e
    by_cases h0 : k0 = k
    · have h1 : ¬ k0 = k' := fun q => hne (q.symm.trans h0)
      have e1 : UMap.erase ((k0, v0) :: rest) k = UMap.erase rest k := by
        simp [UMap.erase, List.filter_cons, h0]
      rw [e1, ih]
      simp [UMap.find, h1]
    · have e1 : UMap.erase ((k0, v0) :: rest) k = (k0, v0) :: UMap.erase rest k := by
        simp [UMap.erase, List.filter_cons, h0]
      rw [e1]
      by_cases h1 : k0 = k'
      · simp [UMap.find, h1]
      · simp [UMap.find, h1, ih]

theorem UMap.find_append_of_find {κ ν : Type} [DecidableEq κ] (m m' : UMap κ ν) (k : κ)
    (v : ν) (h : UMap.find m k = some v) : UMap.find (m ++ m') k = some v := by
  rw [UMap.find_append, h]
  rfl

theorem UMap.find_subscript_of_find {κ ν : Type} [DecidableEq κ] (m : UMap κ ν) (k k' : κ)
    (d v : ν) (h : UMap.find m k' = some v) :
    UMap.find (UMap.subscript m k d).2 k' = some v := by
  unfold UMap.subscript
  cases hk : UMap.find m k with
  | some w => exact h
  | none => exact UMap.find_append_of_find m _ k' v h

theorem broadcast_all_find (st : State) (msg : String) (s k : Socket) (u : String)
    (h : UMap.find st.connected_clients k = some u) :
    UMap.find (broadcast_all st msg s).1.connected_clients k = some u :=
  UMap.find_subscript_of_find st.connected_clients s k "" u h

theorem send_private_find (st : State) (s : Socket) (recp msg : String) (k : Socket)
    (u : String) (h : UMap.find st.connected_clients k = some u) :
    UMap.find (send_private st s recp msg).1.connected_clients k = some u := by
  unfold send_private
  split
  · exact UMap.find_subscript_of_find st.connected_clients s k "" u h
  · exact h

theorem send_group_find (st : State) (s : Socket) (g msg : String) (k : Socket)
    (u : String) (h : UMap.find st.connected_clients k = some u) :
    UMap.find (send_group st s g msg).1.connected_clients k = some u := by
  unfold send_group
  split
  · exact h
  · split
    · exact h
    · exact UMap.find_subscript_of_find st.connected_clients s k "" u h

theorem list_members_fold_find (members : List Socket) (acc : String × UMap Socket String)
    (k : Socket) (u : String) (h : UMap.find acc.2 k = some u) :
    UMap.find (members.foldl
        (fun (acc : String × UMap Socket String) sock =>
          let q := UMap.subscript acc.2 sock ""
          (acc.1 ++ "  - " ++ q.1 ++ "\n", q.2)) acc).2 k = some u := by
  induction members generalizing acc with
  | nil => exact h
  | cons x xs ih =>
    simp only [List.foldl_cons]
    exact ih _ (UMap.find_subscript_of_find acc.2 x k "" u h)

theorem list_members_find (st : State) (s : Socket) (g : String) (k : Socket)
    (u : String) (h : UMap.find st.connected_clients k = some u) :
    UMap.find (list_members st s g).1.connected_clients k = some u := by
  unfold list_members
  split
  · exact h
  · exact list_members_fold_find _ _ k u h

theorem send_private_groups (st : State) (s : Socket) (recp msg : String) :
    (send_private st s recp msg).1.chat_groups = st.chat_groups
      ∧ (send_private st s recp msg).1.registered_users = st.registered_users := by
  unfold send_private
  split <;> exact ⟨rfl, rfl⟩

theorem send_group_groups (st : State) (s : Socket) (g msg : String) :
    (send_group st s g msg).1.chat_groups = st.chat_groups
      ∧ (send_group st s g msg).1.registered_users = st.registered_users := by
  unfold send_group
  split
  · exact ⟨rfl, rfl⟩
  · split <;> exact ⟨rfl, rfl⟩

theorem list_members_groups (st : State) (s : Socket) (g : String) :
    (list_members st s g).1.chat_groups = st.chat_groups
      ∧ (list_members st s g).1.registered_users = st.registered_users := by
  unfold list_members
  split <;> exact ⟨rfl, rfl⟩

theorem create_group_users (st : State) (s : Socket) (g : String) :
    (create_group st s g).1.registered_users = st.registered_users := by
  unfold create_group
  split <;> rfl

theorem join_group_users (st : State) (s : Socket) (g : String) :
    (join_group st s g).1.registered_users = st.registered_users := by
  unfold join_group
  split <;> rfl

theorem leave_group_users (st : State) (s : Socket) (g : String) :
    (leave_group st s g).1.registered_users = st.registered_users := by
  unfold leave_group
  split
  · split <;> rfl
  · rfl

theorem disconnect_client_users (st : State) (s : Socket) :
    (disconnect_client st s).1.registered_users = st.registered_users := by
  cases h : UMap.find st.connected_clients s with
  | none => rw [disconnect_client_absent st s h]
  | some u =>
    by_cases hu : u = ""
    · subst hu
      rw [disconnect_client_empty_name st s h]
    · rw [disconnect_client_registered st s u h hu]

theorem disconnect_client_find_ne (st : State) (s k : Socket) (u : String) (hne : k ≠ s)
    (h : UMap.find st.connected_clients k = some u) :
    UMap.find (disconnect_client st s).1.connected_clients k = some u := by
  cases hs : UMap.find st.connected_clients s with
  | none => rw [disconnect_client_absent st s hs]; exact h
  | some w =>
    by_cases hw : w = ""
    · subst hw
      rw [disconnect_client_empty_name st s hs]
      show UMap.find (UMap.erase st.connected_clients s) k = some u
      rw [UMap.find_erase_ne _ _ _ hne]; exact h
    · rw [disconnect_client_registered st s w hs hw]
      apply UMap.find_append_of_find
      rw [UMap.find_erase_ne _ _ _ hne]; exact h

theorem mem_of_mem_set_erase (members : List Socket) (s x : Socket)
    (h : x ∈ set_erase members s) : x ∈ members :=
  (List.mem_filter.1 h).1

theorem disconnect_client_members (st : State) (s : Socket) (g : String)
    (ms : List Socket) (x : Socket)
    (hg : (g, ms) ∈ (disconnect_client st s).1.chat_groups) (hx : x ∈ ms) :
    ∃ ms0, (g, ms0) ∈ st.chat_groups ∧ x ∈ ms0 := by
  cases hs : UMap.find st.connected_clients s with
  | none => rw [disconnect_client_absent st s hs] at hg; exact ⟨ms, hg, hx⟩
  | some w =>
    by_cases hw : w = ""
    · subst hw
      rw [disconnect_client_empty_name st s hs] at hg
      exact ⟨ms, hg, hx⟩
    · rw [disconnect_client_registered st s w hs hw] at hg
      simp only [List.mem_map] at hg
      obtain ⟨gp, hgp, heq⟩ := hg
      obtain ⟨g0, ms0⟩ := gp
      simp only [Prod.mk.injEq] at heq
      obtain ⟨rfl, rfl⟩ := heq
      exact ⟨ms0, hgp, mem_of_mem_set_erase ms0 s x hx⟩

theorem create_group_members (st : State) (s : Socket) (gname g : String)
    (ms : List Socket) (x : Socket)
    (hg : (g, ms) ∈ (create_group st s gname).1.chat_groups) (hx : x ∈ ms) :
    x = s ∨ ∃ ms0, (g, ms0) ∈ st.chat_groups ∧ x ∈ ms0 := by
  by_cases hk : gname ∈ UMap.keys st.chat_groups
  · rw [create_group_of_key st s gname hk] at hg
    exact Or.inr ⟨ms, hg, hx⟩
  · rw [create_group_of_not_key st s gname hk] at hg
    simp only [List.mem_append, List.mem_singleton, Prod.mk.injEq] at hg
    rcases hg with hg | ⟨_, rfl⟩
    · exact Or.inr ⟨ms, hg, hx⟩
    · left; simpa using hx

theorem join_group_members (st : State) (s : Socket) (gname g : String)
    (ms : List Socket) (x : Socket)
    (hg : (g, ms) ∈ (join_group st s gname).1.chat_groups) (hx : x ∈ ms) :
    x = s ∨ ∃ ms0, (g, ms0) ∈ st.chat_groups ∧ x ∈ ms0 := by
  cases hf : UMap.find st.chat_groups gname with
  | none =>
    rw [join_group_of_not_key st s gname
      ((UMap.find_eq_none_iff _ _).1 hf)] at hg
    exact Or.inr ⟨ms, hg, hx⟩
  | some members =>
    rw [join_group_of_find st s gname members hf] at hg
    rcases UMap.assign_entries _ _ _ _ hg with h | h
    · exact Or.inr ⟨ms, h, hx⟩
    · simp only [Prod.mk.injEq] at h
      obtain ⟨rfl, rfl⟩ := h
      rcases (mem_set_insert members s x).1 hx with h2 | h2
      · exact Or.inl h2
      · exact Or.inr ⟨members, UMap.mem_of_find _ _ _ hf, h2⟩

theorem leave_group_members (st : State) (s : Socket) (gname g : String)
    (ms : List Socket) (x : Socket)
    (hg : (g, ms) ∈ (leave_group st s gname).1.chat_groups) (hx : x ∈ ms) :
    ∃ ms0, (g, ms0) ∈ st.chat_groups ∧ x ∈ ms0 := by
  cases hf : UMap.find st.chat_groups gname with
  | none =>
    rw [leave_group_of_not_key st s gname
      ((UMap.find_eq_none_iff _ _).1 hf)] at hg
    exact ⟨ms, hg, hx⟩
  | some members =>
    have hst : (leave_group st s gname).1.chat_groups
        = UMap.assign st.chat_groups gname (set_erase members s) := by
      unfold leave_group
      rw [hf]
      simp only []
      split <;> rfl
    rw [hst] at hg
    rcases UMap.assign_entries _ _ _ _ hg with h | h
    · exact ⟨ms, h, hx⟩
    · simp only [Prod.mk.injEq] at h
      obtain ⟨rfl, rfl⟩ := h
      exact ⟨members, UMap.mem_of_find _ _ _ hf, mem_of_mem_set_erase members s x hx⟩

/-- What one iteration of the command loop of socket `s` can change: never the
credentials, never the registry entry of another socket, its own entry only
when it disconnects; member sets gain at most `s`, and lose `s` on a disconnect
of a session registered under a non-empty username. -/
theorem command_step_effect (st : State) (s : Socket) (received : Option String) :
    (command_step st s received).1.registered_users = st.registered_users
      ∧ (∀ k u, k ≠ s → UMap.find st.connected_clients k = some u →
          UMap.find (command_step st s received).1.connected_clients k = some u)
      ∧ ((command_step st s received).2.2 = true →
          ∀ u, UMap.find st.connected_clients s = some u →
            UMap.find (command_step st s received).1.connected_clients s = some u)
      ∧ (∀ g ms x, (g, ms) ∈ (command_step st s received).1.chat_groups → x ∈ ms →
          x = s ∨ ∃ ms0, (g, ms0) ∈ st.chat_groups ∧ x ∈ ms0)
      ∧ ((command_step st s received).2.2 = false →
          (∃ u, u ≠ "" ∧ UMap.find st.connected_clients s = some u) →
          in_no_group (command_step st s received).1 s) := by
  apply command_step_cases
    (fun r => r.1.registered_users = st.registered_users
      ∧ (∀ k u, k ≠ s → UMap.find st.connected_clients k = some u →
          UMap.find r.1.connected_clients k = some u)
      ∧ (r.2.2 = true → ∀ u, UMap.find st.connected_clients s = some u →
          UMap.find r.1.connected_clients s = some u)
      ∧ (∀ g ms x, (g, ms) ∈ r.1.chat_groups → x ∈ ms →
          x = s ∨ ∃ ms0, (g, ms0) ∈ st.chat_groups ∧ x ∈ ms0)
      ∧ (r.2.2 = false → (∃ u, u ≠ "" ∧ UMap.find st.connected_clients s = some u) →
          in_no_group r.1 s))
  · exact ⟨rfl, fun _ _ _ h => h, fun _ _ h => h,
      fun g ms x hg hx => Or.inr ⟨ms, hg, hx⟩, fun h => by simp at h⟩
  · refine ⟨disconnect_client_users st s,
      fun k u hne h => disconnect_client_find_ne st s k u hne h,
      fun h => by simp at h,
      fun g ms x hg hx => Or.inr (disconnect_client_members st s g ms x hg hx), ?_⟩
    rintro _ ⟨u, hu, hf⟩
    exact disconnect_client_clears_groups st s u hf hu
  · intro msg
    exact ⟨rfl, fun k u _ h => broadcast_all_find st msg s k u h,
      fun _ u h => broadcast_all_find st msg s s u h,
      fun g ms x hg hx => Or.inr ⟨ms, hg, hx⟩, fun h => by simp at h⟩
  · intro recp msg
    refine ⟨(send_private_groups st s recp msg).2,
      fun k u _ h => send_private_find st s recp msg k u h,
      fun _ u h => send_private_find st s recp msg s u h, ?_, fun h => by simp at h⟩
    intro g ms x hg hx
    simp only [(send_private_groups st s recp msg).1] at hg
    exact Or.inr ⟨ms, hg, hx⟩
  · intro msg
    exact ⟨rfl, fun _ _ _ h => h, fun _ _ h => h,
      fun g ms x hg hx => Or.inr ⟨ms, hg, hx⟩, fun h => by simp at h⟩
  · intro gname
    refine ⟨create_group_users st s gname, ?_, ?_,
      fun g ms x hg hx => create_group_members st s gname g ms x hg hx,
      fun h => by simp at h⟩
    · intro k u _ h
      simp only [create_group_clients]; exact h
    · intro _ u h
      simp only [create_group_clients]; exact h
  · intro gname
    refine ⟨join_group_users st s gname, ?_, ?_,
      fun g ms x hg hx => join_group_members st s gname g ms x hg hx,
      fun h => by simp at h⟩
    · intro k u _ h
      simp only [join_group_clients]; exact h
    · intro _ u h
      simp only [join_group_clients]; exact h
  · intro gname
    refine ⟨leave_group_users st s gname, ?_, ?_,
      fun g ms x hg hx => Or.inr (leave_group_members st s gname g ms x hg hx),
      fun h => by simp at h⟩
    · intro k u _ h
      simp only [leave_group_clients]; exact h
    · intro _ u h
      simp only [leave_group_clients]; exact h
  · intro gname msg
    refine ⟨(send_group_groups st s gname msg).2,
      fun k u _ h => send_group_find st s gname msg k u h,
      fun _ u h => send_group_find st s gname msg s u h, ?_, fun h => by simp at h⟩
    intro g ms x hg hx
    simp only [(send_group_groups st s gname msg).1] at hg
    exact Or.inr ⟨ms, hg, hx⟩
  · refine ⟨by rw [list_groups_state], ?_, ?_, ?_, fun h => by simp at h⟩
    · intro k u _ h
      simp only [list_groups_state]; exact h
    · intro _ u h
      simp only [list_groups_state]; exact h
    · intro g ms x hg hx
      simp only [list_groups_state] at hg
      exact Or.inr ⟨ms, hg, hx⟩
  · intro gname
    refine ⟨(list_members_groups st s gname).2,
      fun k u _ h => list_members_find st s gname k u h,
      fun _ u h => list_members_find st s gname s u h, ?_, fun h => by simp at h⟩
    intro g ms x hg hx
    simp only [(list_members_groups st s gname).1] at hg
    exact Or.inr ⟨ms, hg, hx⟩

/-- What the login steps of socket `s` can change: never the credentials or the
groups, never the registry entry of another socket; on success `s` is
registered under a username of the credentials. -/
theorem client_session_login_effect (st : State) (s : Socket)
    (recv1 recv2 : Option String) :
    (client_session_login st s recv1 recv2).1.registered_users = st.registered_users
      ∧ (client_session_login st s recv1 recv2).1.chat_groups = st.chat_groups
      ∧ (∀ k u, k ≠ s → UMap.find st.connected_clients k = some u →
          UMap.find (client_session_login st s recv1 recv2).1.connected_clients k = some u)
      ∧ ((client_session_login st s recv1 recv2).2.2 = true →
          ∃ u, u ∈ UMap.keys st.registered_users
            ∧ UMap.find (client_session_login st s recv1 recv2).1.connected_clients s
                = some u) := by
  unfold client_session_login
  cases recv1 with
  | none => exact ⟨rfl, rfl, fun _ _ _ h => h, fun h => by simp at h⟩
  | some buffer1 =>
    cases recv2 with
    | none => exact ⟨rfl, rfl, fun _ _ _ h => h, fun h => by simp at h⟩
    | some buffer2 =>
      simp only []
      split
      · exact ⟨rfl, rfl, fun _ _ _ h => h, fun h => by simp at h⟩
      · split
        · exact ⟨rfl, rfl, fun _ _ _ h => h, fun h => by simp at h⟩
        · rename_i hcred _
          refine ⟨rfl, rfl, ?_, ?_⟩
          · intro k u hne h
            refine broadcast_all_find
              { st with connected_clients :=
                  UMap.assign st.connected_clients s (strip buffer1) }
              (strip buffer1 ++ " joined the chat.") s k u ?_
            show UMap.find (UMap.assign st.connected_clients s (strip buffer1)) k = some u
            rw [UMap.find_assign_ne _ _ _ _ hne]; exact h
          · intro _
            refine ⟨strip buffer1, ?_, ?_⟩
            · have hc : ¬ UMap.count st.registered_users (strip buffer1) = 0 :=
                fun q => hcred (Or.inl q)
              rw [UMap.count_eq_zero_iff, UMap.find_eq_none_iff] at hc
              exact not_not.1 hc
            · refine broadcast_all_find
                { st with connected_clients :=
                    UMap.assign st.connected_clients s (strip buffer1) }
                (strip buffer1 ++ " joined the chat.") s s (strip buffer1) ?_
              exact UMap.find_assign_self _ _ _

theorem consistent_step (users : UMap String String) (hempty : "" ∉ UMap.keys users)
    (sv : Server) (a : Action) (h : sv.consistent users) :
    (sv.step a).1.consistent users := by
  obtain ⟨h1, h2, h3⟩ := h
  cases a with
  | connect s recv1 recv2 =>
    by_cases hs : s ∈ sv.active
    · simpa [Server.step, hs] using (⟨h1, h2, h3⟩ : sv.consistent users)
    · obtain ⟨e1, e2, e3, e4⟩ := client_session_login_effect sv.st s recv1 recv2
      have hstep : (sv.step (Action.connect s recv1 recv2)).1
          = { st := (client_session_login sv.st s recv1 recv2).1,
              active := if (client_session_login sv.st s recv1 recv2).2.2
                then s :: sv.active else sv.active } := by
        simp [Server.step, hs]
      rw [hstep]
      refine ⟨e1.trans h1, ?_, ?_⟩
      · intro k hk
        by_cases hks : k = s
        · subst hks
          cases hok : (client_session_login sv.st k recv1 recv2).2.2 with
          | false =>
            rw [hok] at hk
            exact absurd hk hs
          | true =>
            obtain ⟨u, hu, hf⟩ := e4 hok
            refine ⟨u, ?_, hf⟩
            intro hu0
            rw [hu0, h1] at hu
            exact hempty hu
        · have hk' : k ∈ sv.active := by
            cases hok : (client_session_login sv.st s recv1 recv2).2.2 with
            | false => rw [hok] at hk; exact hk
            | true =>
              rw [hok] at hk
              simp only [if_true, List.mem_cons] at hk
              rcases hk with hk | hk
              · exact absurd hk hks
              · exact hk
          obtain ⟨u, hu, hf⟩ := h2 k hk'
          exact ⟨u, hu, e3 k u hks hf⟩
      · intro g members x hg hx
        simp only [e2] at hg
        have hx' := h3 g members x hg hx
        cases (client_session_login sv.st s recv1 recv2).2.2 with
        | false => exact hx'
        | true => exact List.mem_cons_of_mem _ hx'
  | receive s received =>
    by_cases hs : s ∈ sv.active
    · obtain ⟨e1, e2, e3, e4, e5⟩ := command_step_effect sv.st s received
      have hstep : (sv.step (Action.receive s received)).1
          = { st := (command_step sv.st s received).1,
              active := if (command_step sv.st s received).2.2
                then sv.active
                else sv.active.filter (fun k => decide (k ≠ s)) } := by
        simp [Server.step, hs]
      rw [hstep]
      obtain ⟨us, hus, hfs⟩ := h2 s hs
      cases hok : (command_step sv.st s received).2.2 with
      | true =>
        refine ⟨e1.trans h1, ?_, ?_⟩
        · intro k hk
          simp only [if_true] at hk
          obtain ⟨u, hu, hf⟩ := h2 k hk
          by_cases hks : k = s
          · subst hks
            exact ⟨u, hu, e3 hok u hf⟩
          · exact ⟨u, hu, e2 k u hks hf⟩
        · intro g members x hg hx
          simp only [if_true]
          rcases e4 g members x hg hx with hxs | ⟨ms0, hg0, hx0⟩
          · rw [hxs]; exact hs
          · exact h3 g ms0 x hg0 hx0
      | false =>
        refine ⟨e1.trans h1, ?_, ?_⟩
        · intro k hk
          simp only [Bool.false_eq_true, if_false, List.mem_filter, decide_eq_true_eq] at hk
          obtain ⟨u, hu, hf⟩ := h2 k hk.1
          exact ⟨u, hu, e2 k u hk.2 hf⟩
        · intro g members x hg hx
          simp only [Bool.false_eq_true, if_false, List.mem_filter, decide_eq_true_eq]
          have hxs : x ≠ s := by
            intro q
            rw [q] at hx
            exact e5 hok ⟨us, hus, hfs⟩ g members hg hx
          rcases e4 g members x hg hx with q | ⟨ms0, hg0, hx0⟩
          · exact absurd q hxs
          · exact ⟨h3 g ms0 x hg0 hx0, hxs⟩
    · simpa [Server.step, hs] using (⟨h1, h2, h3⟩ : sv.consistent users)

theorem consistent_run (users : UMap String String) (hempty : "" ∉ UMap.keys users)
    (actions : List Action) (sv : Server) (h : sv.consistent users) :
    (sv.run actions).consistent users := by
  induction actions generalizing sv with
  | nil => exact h
  | cons a rest ih =>
    unfold Server.run
    simp only [List.foldl_cons]
    exact ih _ (consistent_step users hempty sv a h)

/-- When the credentials hold no empty username, every reachable state has no
dangling member: each socket in a member set is a key of `connected_clients`. -/
theorem reachable_no_dangling_members (users : UMap String String)
    (hempty : "" ∉ UMap.keys users) (sv : Server) (h : Reachable users sv) :
    no_dangling_members sv.st := by
  obtain ⟨actions, rfl⟩ := h
  have hinit : (Server.init users).consistent users := by
    refine ⟨rfl, ?_, ?_⟩
    · intro s hs; simp [Server.init] at hs
    · intro g members x hg; simp [Server.init] at hg
  obtain ⟨_, h2, h3⟩ := consistent_run users hempty actions _ hinit
  intro g members x hg hx
  obtain ⟨u, _, hf⟩ := h2 x (h3 g members x hg hx)
  exact (UMap.find_isSome_iff _ _).1 ⟨u, hf⟩

/-! ## `strip` -/

theorem find_first_not_of_all (chars l : List Char) (h : ∀ c ∈ l, c ∈ chars) :
    find_first_not_of chars l = none := by
  induction l with
  | nil => rfl
  | cons x t ih =>
    have hx : x ∈ chars := h x (List.mem_cons_self _ _)
    have ht := ih (fun c hc => h c (List.mem_cons_of_mem _ hc))
    simp [find_first_not_of, hx, ht]

theorem find_last_not_of_all (chars l : List Char) (h : ∀ c ∈ l, c ∈ chars) :
    find_last_not_of chars l = none := by
  induction l with
  | nil => rfl
  | cons x t ih =>
    have hx : x ∈ chars := h x (List.mem_cons_self _ _)
    have ht := ih (fun c hc => h c (List.mem_cons_of_mem _ hc))
    simp [find_last_not_of, hx, ht]

theorem find_first_not_of_append (chars a : List Char) (c : Char) (rest : List Char)
    (ha : ∀ x ∈ a, x ∈ chars) (hc : c ∉ chars) :
    find_first_not_of chars (a ++ c :: rest) = some a.length := by
  induction a with
  | nil => simp [find_first_not_of, hc]
  | cons x t ih =>
    have hx : x ∈ chars := ha x (List.mem_cons_self _ _)
    have ht := ih (fun y hy => ha y (List.mem_cons_of_mem _ hy))
    simp [find_first_not_of, hx, ht]

theorem find_last_not_of_append (chars pre : List Char) (d : Char) (b : List Char)
    (hd : d ∉ chars) (hb : ∀ x ∈ b, x ∈ chars) :
    find_last_not_of chars (pre ++ d :: b) = some pre.length := by
  induction pre with
  | nil => simp [find_last_not_of, find_last_not_of_all chars b hb, hd]
  | cons x t ih => simp [find_last_not_of, ih]

/-- On a string made of removable characters, then a block that begins and ends
with a character that is not removable, then removable characters, `strip`
returns the block. -/
theorem strip_of_shape (a m b : List Char)
    (ha : ∀ x ∈ a, x ∈ strip_chars) (hb : ∀ x ∈ b, x ∈ strip_chars)
    (hfirst : ∃ c r, m = c :: r ∧ c ∉ strip_chars)
    (hlast : ∃ pre d, m = pre ++ [d] ∧ d ∉ strip_chars) :
    strip ⟨a ++ m ++ b⟩ = ⟨m⟩ := by
  obtain ⟨c, r, hm1, hc⟩ := hfirst
  obtain ⟨pre, d, hm2, hd⟩ := hlast
  have h1 : find_first_not_of strip_chars (a ++ m ++ b) = some a.length := by
    rw [hm1, List.append_assoc, List.cons_append]
    exact find_first_not_of_append strip_chars a c (r ++ b) ha hc
  have h2 : find_last_not_of strip_chars (a ++ m ++ b) = some (a.length + pre.length) := by
    have e : a ++ m ++ b = (a ++ pre) ++ d :: b := by rw [hm2]; simp
    rw [e, find_last_not_of_append strip_chars (a ++ pre) d b hd hb, List.length_append]
  have hlen : a.length + pre.length - a.length + 1 = m.length := by
    rw [hm2]; simp
  unfold strip
  simp only [h1, h2, substr, hlen]
  congr 1
  rw [List.append_assoc, List.drop_left, List.take_left]

theorem strip_of_all (l : List Char) (h : ∀ c ∈ l, c ∈ strip_chars) :
    strip ⟨l⟩ = "" := by
  unfold strip
  simp only [find_first_not_of_all strip_chars l h]

/-- Every character list is all removable characters, or splits into removable
characters, a block that begins and ends with a character that is not
removable, and removable characters. -/
theorem strip_shape (chars l : List Char) :
    (∀ c ∈ l, c ∈ chars)
      ∨ ∃ a m b, l = a ++ m ++ b ∧ (∀ x ∈ a, x ∈ chars) ∧ (∀ x ∈ b, x ∈ chars)
          ∧ (∃ c r, m = c :: r ∧ c ∉ chars) ∧ (∃ pre d, m = pre ++ [d] ∧ d ∉ chars) := by
  induction l with
  | nil => left; intro c hc; cases hc
  | cons x t ih =>
    by_cases hx : x ∈ chars
    · rcases ih with hall | ⟨a, m, b, hl, ha, hb, hf, hlast⟩
      · left
        intro c hc
        rcases List.mem_cons.1 hc with rfl | hc
        · exact hx
        · exact hall c hc
      · right
        refine ⟨x :: a, m, b, by rw [hl]; simp, ?_, hb, hf, hlast⟩
        intro y hy
        rcases List.mem_cons.1 hy with rfl | hy
        · exact hx
        · exact ha y hy
    · right
      rcases ih with hall | ⟨a, m, b, hl, ha, hb, hf, ⟨pre, d, hm, hd⟩⟩
      · exact ⟨[], [x], t, by simp, by simp, hall, ⟨x, [], rfl, hx⟩, ⟨[], x, rfl, hx⟩⟩
      · refine ⟨[], x :: (a ++ m), b, by rw [hl]; simp, by simp, hb,
          ⟨x, a ++ m, rfl, hx⟩, ⟨x :: (a ++ pre), d, by rw [hm]; simp, hd⟩⟩

/-- C19: `strip x` trims exactly the surrounding whitespace.  The removable
characters are space, tab, CR and LF; `x` is `a ++ strip x ++ b` with `a` and
`b` made of removable characters only; `strip x` is empty or begins and ends
with a character that is not removable; `strip` is idempotent; and `strip x`
is empty exactly when every character of `x` is removable. -/
theorem strip_trims (x : String) :
    (∀ c : Char, c ∈ strip_chars ↔ (c = ' ' ∨ c = '\t' ∨ c = '\r' ∨ c = '\n'))
      ∧ (∃ a b : List Char, x.data = a ++ (strip x).data ++ b
          ∧ (∀ c ∈ a, c ∈ strip_chars) ∧ (∀ c ∈ b, c ∈ strip_chars))
      ∧ (strip x = ""
          ∨ ((∃ c r, (strip x).data = c :: r ∧ c ∉ strip_chars)
            ∧ (∃ pre d, (strip x).data = pre ++ [d] ∧ d ∉ strip_chars)))
      ∧ strip (strip x) = strip x
      ∧ (strip x = "" ↔ ∀ c ∈ x.data, c ∈ strip_chars) := by
  refine ⟨fun c => by simp [strip_chars], ?_⟩
  obtain ⟨l⟩ := x
  rcases strip_shape strip_chars l with hall | ⟨a, m, b, hl, ha, hb, hf, hlast⟩
  · have hs := strip_of_all l hall
    refine ⟨⟨l, [], ?_, hall, by simp⟩, Or.inl hs, ?_, ?_⟩
    · rw [hs]; simp
    · rw [hs]; rfl
    · exact ⟨fun _ => hall, fun _ => hs⟩
  · have hs : strip ⟨l⟩ = ⟨m⟩ := by rw [hl]; exact strip_of_shape a m b ha hb hf hlast
    have hidem : strip ⟨m⟩ = ⟨m⟩ := by
      have := strip_of_shape [] m [] (by simp) (by simp) hf hlast
      simpa using this
    refine ⟨⟨a, b, ?_, ha, hb⟩, Or.inr ⟨?_, ?_⟩, ?_, ?_⟩
    · rw [hs]; exact hl
    · rw [hs]; exact hf
    · rw [hs]; exact hlast
    · rw [hs]; exact hidem
    · obtain ⟨c, r, hm, hc⟩ := hf
      constructor
      · intro he
        rw [hs, hm] at he
        have := congrArg String.data he
        simp at this
      · intro hall
        exfalso
        apply hc
        apply hall
        show c ∈ l
        rw [hl, hm]
        simp

/-! ## Parsing of `/group_msg` and `/create_group` -/

theorem index_of_not_mem_take (c : Char) (l : List Char) (k : Nat)
    (h : index_of c l = some k) : c ∉ l.take k := by
  induction l generalizing k with
  | nil => simp [index_of] at h
  | cons d ds ih =>
    by_cases hd : d = c
    · simp [index_of, hd] at h
      subst h
      simp
    · simp only [index_of, hd, if_false, Option.map_eq_some'] at h
      obtain ⟨j, hj, rfl⟩ := h
      simp only [List.take_succ_cons, List.mem_cons, not_or]
      exact ⟨fun q => hd q.symm, ih j hj⟩

theorem substr_before_find_char (cl : String) (c : Char) (pos space_pos : Nat)
    (h : find_char cl c pos = some space_pos) :
    c ∉ (substr cl pos (space_pos - pos)).data := by
  unfold find_char at h
  simp only [Option.map_eq_some'] at h
  obtain ⟨k, hk, rfl⟩ := h
  simp only [substr, Nat.add_sub_cancel]
  exact index_of_not_mem_take c _ k hk

theorem mem_of_mem_strip (x : String) (c : Char) (h : c ∈ (strip x).data) :
    c ∈ x.data := by
  obtain ⟨l⟩ := x
  rcases strip_shape strip_chars l with hall | ⟨a, m, b, hl, ha, hb, hf, hlast⟩
  · rw [strip_of_all l hall] at h
    simp at h
  · have hs : strip ⟨l⟩ = ⟨m⟩ := by rw [hl]; exact strip_of_shape a m b ha hb hf hlast
    rw [hs] at h
    show c ∈ l
    rw [hl]
    simp only [List.mem_append]
    exact Or.inl (Or.inr h)

theorem command_step_group_msg_invalid (st : State) (s : Socket) (buffer : String)
    (h : starts_with (strip buffer) "/group_msg " = true)
    (hsp : find_char (strip buffer) ' ' 11 = none) :
    command_step st s (some buffer) =
      (st, send_to_client s "Error: Invalid format. Usage: /group_msg <group> <message>",
        true) := by
  have e0 := ne_of_starts_with _ _ "" h (by rfl)
  have e1 := ne_of_starts_with _ _ "/exit" h (by rfl)
  have e2 := starts_with_exclusive _ _ "/broadcast " h (by rfl) (by rfl)
  have e3 := starts_with_exclusive _ _ "/msg " h (by rfl) (by rfl)
  have e4 := starts_with_exclusive _ _ "/create_group " h (by rfl) (by rfl)
  have e5 := starts_with_exclusive _ _ "/join_group " h (by rfl) (by rfl)
  have e6 := starts_with_exclusive _ _ "/leave_group " h (by rfl) (by rfl)
  simp [command_step, e0, e1, e2, e3, e4, e5, e6, h, hsp]

/-- C20: on every command line the loop handles in the `/group_msg` branch,
either no space follows the command and the line is answered with the format
error without calling `send_group`, or `send_group` is called with the text
between the command and the next space, trimmed, which contains no space.
The `/create_group` branch passes the whole trimmed remainder of the line as
the name, so `/create_group a b` creates the group `a b`.  Hence a group name
that contains a space is never the name a `/group_msg` line passes to
`send_group`. -/
theorem group_msg_name_has_no_space (st : State) (s : Socket) (buffer : String) :
    (∀ space_pos : Nat, starts_with (strip buffer) "/group_msg " = true →
        find_char (strip buffer) ' ' 11 = some space_pos →
        ' ' ∉ (strip (substr (strip buffer) 11 (space_pos - 11))).data
          ∧ command_step st s (some buffer)
              = ((send_group st s (strip (substr (strip buffer) 11 (space_pos - 11)))
                    (strip (substr_from (strip buffer) (space_pos + 1)))).1,
                 (send_group st s (strip (substr (strip buffer) 11 (space_pos - 11)))
                    (strip (substr_from (strip buffer) (space_pos + 1)))).2, true))
      ∧ (starts_with (strip buffer) "/group_msg " = true →
          find_char (strip buffer) ' ' 11 = none →
          command_step st s (some buffer)
            = (st, send_to_client s
                "Error: Invalid format. Usage: /group_msg <group> <message>", true))
      ∧ (starts_with (strip buffer) "/create_group " = true →
          command_step st s (some buffer)
            = ((create_group st s (strip (substr_from (strip buffer) 14))).1,
               (create_group st s (strip (substr_from (strip buffer) 14))).2, true))
      ∧ (' ' ∈ ("a b" : String).data
          ∧ (command_step
              { registered_users := [], connected_clients := [(5, "alice")],
                chat_groups := [] } 5 (some "/create_group a b\n")).1.chat_groups
            = [("a b", [5])])
      ∧ (∀ (g : String) (space_pos : Nat), ' ' ∈ g.data →
          starts_with (strip buffer) "/group_msg " = true →
          find_char (strip buffer) ' ' 11 = some space_pos →
          strip (substr (strip buffer) 11 (space_pos - 11)) ≠ g) := by
  have hname : ∀ space_pos : Nat, find_char (strip buffer) ' ' 11 = some space_pos →
      ' ' ∉ (strip (substr (strip buffer) 11 (space_pos - 11))).data := by
    intro space_pos hsp hmem
    exact substr_before_find_char _ _ _ _ hsp (mem_of_mem_strip _ _ hmem)
  refine ⟨?_, ?_, ?_, ⟨by decide, by rfl⟩, ?_⟩
  · intro space_pos hb hsp
    exact ⟨hname space_pos hsp, command_step_group_msg st s buffer space_pos hb hsp⟩
  · intro hb hsp
    exact command_step_group_msg_invalid st s buffer hb hsp
  · intro hb
    exact command_step_create_group st s buffer hb
  · intro g space_pos hg _ hsp heq
    rw [← heq] at hg
    exact hname space_pos hsp hg

/-- C20 at a concrete state: the groups `a b` and `a` exist with member 5;
`/group_msg a b hi` is passed to `send_group` as group `a` with text `b hi`,
so the message goes to group `a`. -/
theorem group_msg_name_has_no_space_witness :
    sends (command_step
        { registered_users := [], connected_clients := [(5, "alice"), (6, "bob")],
          chat_groups := [("a b", [5, 6]), ("a", [5])] } 5
        (some "/group_msg a b hi\n")).2.1
      = [(5, "[Group: a] You: b hi")]
    ∧ strip (substr (strip "/group_msg a b hi\n") 11 (12 - 11)) ≠ "a b" :=
  ⟨by rfl,
    (group_msg_name_has_no_space
      { registered_users := [], connected_clients := [(5, "alice"), (6, "bob")],
        chat_groups := [("a b", [5, 6]), ("a", [5])] } 5
      "/group_msg a b hi\n").2.2.2.2 "a b" 12 (by decide) (by rfl) (by rfl)⟩

/-! ## Private messages -/

theorem command_step_msg (st : State) (s : Socket) (buffer : String) (space_loc : Nat)
    (h : starts_with (strip buffer) "/msg " = true)
    (hsp : find_char (strip buffer) ' ' 5 = some space_loc) :
    command_step st s (some buffer) =
      ((send_private st s (strip (substr (strip buffer) 5 (space_loc - 5)))
          (strip (substr_from (strip buffer) (space_loc + 1)))).1,
        (send_private st s (strip (substr (strip buffer) 5 (space_loc - 5)))
          (strip (substr_from (strip buffer) (space_loc + 1)))).2, true) := by
  have e0 := ne_of_starts_with _ _ "" h (by rfl)
  have e1 := ne_of_starts_with _ _ "/exit" h (by rfl)
  have e2 := starts_with_exclusive _ _ "/broadcast " h (by rfl) (by rfl)
  simp [command_step, e0, e1, e2, h, hsp]

theorem send_private_of_none (st : State) (s : Socket) (r t : String)
    (h : ∀ e ∈ st.connected_clients, e.2 ≠ r) :
    send_private st s r t =
      (st, [Event.acquire Mutex.clients_lock,
            Event.send s ("Error: Could not find user '" ++ r ++ "' online."),
            Event.release Mutex.clients_lock]) := by
  have hf : st.connected_clients.find? (fun e => decide (e.2 = r)) = none := by
    rw [List.find?_eq_none]
    intro e he
    simpa using h e he
  simp [send_private, hf, send_to_client]

theorem send_private_of_unique (st : State) (s d : Socket) (u r t : String)
    (hs : UMap.find st.connected_clients s = some u)
    (hd : (d, r) ∈ st.connected_clients)
    (huniq : ∀ d' : Socket, (d', r) ∈ st.connected_clients → d' = d) :
    send_private st s r t =
      (st, [Event.acquire Mutex.clients_lock,
            Event.send d ("[Whisper] " ++ u ++ ": " ++ t),
            Event.send s ("[Sent -> " ++ r ++ "]: " ++ t),
            Event.release Mutex.clients_lock]) := by
  cases hf : st.connected_clients.find? (fun e => decide (e.2 = r)) with
  | none =>
    rw [List.find?_eq_none] at hf
    have := hf (d, r) hd
    simp at this
  | some e =>
    have hp := List.find?_some hf
    have hm := List.mem_of_find?_eq_some hf
    obtain ⟨d', r'⟩ := e
    simp only [decide_eq_true_eq] at hp
    subst hp
    have hd' : d' = d := huniq d' hm
    subst hd'
    simp [send_private, hf, send_to_client, UMap.subscript_of_find _ _ _ _ hs]

/-- C12: when no entry of `connected_clients` has username `r`,
`send_private s r t` sends exactly one message in total,
`Error: Could not find user '<r>' online.` to `s`, so nothing to any other
socket, and changes no table; and every command line the loop parses as `/msg`
with that recipient behaves so. -/
theorem send_private_offline (st : State) (s : Socket) (r t : String)
    (h : ∀ e ∈ st.connected_clients, e.2 ≠ r) :
    sends (send_private st s r t).2
        = [(s, "Error: Could not find user '" ++ r ++ "' online.")]
      ∧ (∀ x : Socket, x ≠ s → sent_to x (send_private st s r t).2 = [])
      ∧ (send_private st s r t).1 = st
      ∧ ∀ (buffer : String) (space_loc : Nat),
          starts_with (strip buffer) "/msg " = true →
          find_char (strip buffer) ' ' 5 = some space_loc →
          strip (substr (strip buffer) 5 (space_loc - 5)) = r →
          sends (command_step st s (some buffer)).2.1
            = [(s, "Error: Could not find user '" ++ r ++ "' online.")] := by
  have hsp := fun t' => send_private_of_none st s r t' h
  refine ⟨by rw [hsp]; rfl, ?_, by rw [hsp], ?_⟩
  · intro x hx
    rw [hsp]
    have hx' : ¬ s = x := fun q => hx q.symm
    simp [sent_to, sends, hx']
  · intro buffer space_loc hb hloc hname
    rw [command_step_msg st s buffer space_loc hb hloc, hname, hsp]
    rfl

/-- C12 at the scenario of the specification: alice, alone online on socket 5,
runs `/msg bob secret`. -/
theorem send_private_offline_witness :
    (∀ e ∈ [((5 : Socket), "alice")], e.2 ≠ "bob")
      ∧ sends (command_step
          { registered_users := [("alice", "pa"), ("bob", "pb")],
            connected_clients := [(5, "alice")], chat_groups := [] } 5
          (some "/msg bob secret\n")).2.1
        = [(5, "Error: Could not find user 'bob' online.")] :=
  ⟨by decide,
    (send_private_offline
      { registered_users := [("alice", "pa"), ("bob", "pb")],
        connected_clients := [(5, "alice")], chat_groups := [] } 5 "bob" "secret"
      (by decide)).2.2.2 "/msg bob secret\n" 8 (by rfl) (by rfl) (by rfl)⟩

/-- C13: when `s` is registered under `u` and `d` is the one socket registered
under `r`, `send_private s r t` sends exactly two messages,
`[Whisper] <u>: <t>` to `d` and `[Sent -> <r>]: <t>` to `s`, so nothing to any
other socket. -/
theorem send_private_online (st : State) (s d : Socket) (u r t : String)
    (hs : UMap.find st.connected_clients s = some u)
    (hd : (d, r) ∈ st.connected_clients)
    (huniq : ∀ d' : Socket, (d', r) ∈ st.connected_clients → d' = d) :
    sends (send_private st s r t).2
        = [(d, "[Whisper] " ++ u ++ ": " ++ t), (s, "[Sent -> " ++ r ++ "]: " ++ t)]
      ∧ (∀ x : Socket, x ≠ d → x ≠ s → sent_to x (send_private st s r t).2 = []) := by
  have hsp := send_private_of_unique st s d u r t hs hd huniq
  refine ⟨by rw [hsp]; rfl, ?_⟩
  intro x hxd hxs
  rw [hsp]
  have h1 : ¬ d = x := fun q => hxd q.symm
  have h2 : ¬ s = x := fun q => hxs q.symm
  simp [sent_to, sends, h1, h2]

/-- C13 at a concrete state: alice on socket 5 whispers to bob on socket 6. -/
theorem send_private_online_witness :
    UMap.find [((5 : Socket), "alice"), (6, "bob")] 5 = some "alice"
      ∧ ((6 : Socket), "bob") ∈ [((5 : Socket), "alice"), (6, "bob")]
      ∧ sends (send_private
          { registered_users := [], connected_clients := [(5, "alice"), (6, "bob")],
            chat_groups := [] } 5 "bob" "secret").2
        = [(6, "[Whisper] alice: secret"), (5, "[Sent -> bob]: secret")] :=
  ⟨by rfl, by decide,
    (send_private_online
      { registered_users := [], connected_clients := [(5, "alice"), (6, "bob")],
        chat_groups := [] } 5 6 "alice" "bob" "secret" (by rfl) (by decide)
      (by
        intro d' hd'
        simp only [List.mem_cons, Prod.mk.injEq, List.mem_singleton, List.not_mem_nil,
          or_false] at hd'
        rcases hd' with ⟨_, h⟩ | ⟨h, _⟩
        · exact absurd h (by decide)
        · exact h)).1⟩

/-! ## Who receives what -/

theorem sends_append (a b : List Event) : sends (a ++ b) = sends a ++ sends b := by
  induction a with
  | nil => rfl
  | cons e t ih =>
    cases e <;> simp [sends, ih]

theorem sent_to_append (x : Socket) (a b : List Event) :
    sent_to x (a ++ b) = sent_to x a ++ sent_to x b := by
  simp [sent_to, sends_append]

/-- One message per element of a list without repeated destinations: socket `x`
gets the message once when it is a destination other than `s`, and nothing
otherwise. -/
theorem sent_to_flatMap {α : Type} (l : List α) (k : α → Socket) (s x : Socket)
    (msg : String) (hnd : (l.map k).Nodup) :
    sent_to x (l.flatMap (fun e =>
        if k e ≠ s then send_to_client (k e) msg else []))
      = if x ≠ s ∧ x ∈ l.map k then [msg] else [] := by
  induction l with
  | nil => simp [sent_to, sends]
  | cons e t ih =>
    simp only [List.map_cons, List.nodup_cons] at hnd
    obtain ⟨hnot, hnd'⟩ := hnd
    rw [List.flatMap_cons, sent_to_append, ih hnd']
    by_cases hes : k e = s
    · have h1 : sent_to x (if k e ≠ s then send_to_client (k e) msg else []) = [] := by
        simp [hes, sent_to, sends]
      rw [h1]
      by_cases hx : x = s
      · simp [hx]
      · have hxe : ¬ x = k e := fun q => hx (q.trans hes)
        simp [hx, hxe]
    · by_cases hxe : x = k e
      · subst hxe
        have h1 : sent_to (k e) (if k e ≠ s then send_to_client (k e) msg else [])
            = [msg] := by
          simp [hes, sent_to, sends, send_to_client]
        rw [h1]
        have hnot' : ¬ ∃ a ∈ t, k a = k e := by
          intro ⟨a, ha, hka⟩
          exact hnot (List.mem_map.2 ⟨a, ha, hka⟩)
        simp [hes, hnot']
      · have hxe' : ¬ k e = x := fun q => hxe q.symm
        have h1 : sent_to x (if k e ≠ s then send_to_client (k e) msg else []) = [] := by
          simp [hes, sent_to, sends, send_to_client, hxe']
        rw [h1]
        simp [hxe]

theorem command_step_broadcast (st : State) (s : Socket) (buffer : String)
    (h : starts_with (strip buffer) "/broadcast " = true) :
    command_step st s (some buffer) =
      ((broadcast_all st (strip (substr_from (strip buffer) 11)) s).1,
        (broadcast_all st (strip (substr_from (strip buffer) 11)) s).2, true) := by
  have e0 := ne_of_starts_with _ _ "" h (by rfl)
  have e1 := ne_of_starts_with _ _ "/exit" h (by rfl)
  simp [command_step, e0, e1, h]

/-- C11: when `g` exists, `s` is in its member set and is registered under `u`,
`send_group s g t` sends exactly one message `[Group: <g>] You: <t>` to `s`,
exactly one message `[Group: <g>] <u>: <t>` to each other member of `g`, and
nothing to a socket that is not a member; and every command line the loop
parses as `/group_msg` with that name and text produces that trace.  (The
member set has no repeated element, as in every `std::unordered_set`.) -/
theorem send_group_delivery (st : State) (s : Socket) (g u t : String)
    (members : List Socket) (hg : UMap.find st.chat_groups g = some members)
    (hnd : members.Nodup) (hs : s ∈ members)
    (hu : UMap.find st.connected_clients s = some u) :
    sent_to s (send_group st s g t).2 = ["[Group: " ++ g ++ "] You: " ++ t]
      ∧ (∀ x : Socket, x ∈ members → x ≠ s →
          sent_to x (send_group st s g t).2
            = ["[Group: " ++ g ++ "] " ++ u ++ ": " ++ t])
      ∧ (∀ x : Socket, x ∉ members → sent_to x (send_group st s g t).2 = [])
      ∧ ∀ (buffer : String) (space_pos : Nat),
          starts_with (strip buffer) "/group_msg " = true →
          find_char (strip buffer) ' ' 11 = some space_pos →
          strip (substr (strip buffer) 11 (space_pos - 11)) = g →
          strip (substr_from (strip buffer) (space_pos + 1)) = t →
          (command_step st s (some buffer)).2.1 = (send_group st s g t).2 := by
  have htrace : ∀ x : Socket, sent_to x (send_group st s g t).2
      = (if x ≠ s ∧ x ∈ members then ["[Group: " ++ g ++ "] " ++ u ++ ": " ++ t] else [])
        ++ (if x = s then ["[Group: " ++ g ++ "] You: " ++ t] else []) := by
    intro x
    have hfm := sent_to_flatMap members (fun m => m) s x
      ("[Group: " ++ g ++ "] " ++ u ++ ": " ++ t) (by simpa using hnd)
    simp only [List.map_id''] at hfm
    have e : (send_group st s g t).2
        = [Event.acquire Mutex.groups_lock]
          ++ (members.flatMap (fun m =>
              if m ≠ s then
                send_to_client m ("[Group: " ++ g ++ "] " ++ u ++ ": " ++ t)
              else []))
          ++ [Event.send s ("[Group: " ++ g ++ "] You: " ++ t)]
          ++ [Event.release Mutex.groups_lock] := by
      simp [send_group, hg, hs, UMap.subscript_of_find _ _ _ _ hu, send_to_client]
    rw [e, sent_to_append, sent_to_append, sent_to_append, hfm]
    by_cases hx : x = s
    · subst hx
      simp [sent_to, sends]
    · have hx' : ¬ s = x := fun q => hx q.symm
      simp [sent_to, sends, hx, hx']
  refine ⟨?_, ?_, ?_, ?_⟩
  · rw [htrace]; simp
  · intro x hxm hxs
    rw [htrace]; simp [hxm, hxs]
  · intro x hxm
    have hxs : x ≠ s := fun q => hxm (q ▸ hs)
    rw [htrace]; simp [hxm, hxs]
  · intro buffer space_pos hb hsp hname htext
    rw [command_step_group_msg st s buffer space_pos hb hsp, hname, htext]

/-- C11 at the scenario of the specification: alice logs in on socket 5 and
creates `team`, bob logs in on socket 7 and joins it, alice sends
`/group_msg team hi`. -/
theorem send_group_delivery_witness :
    ((Server.init (read_user_data ["alice:pa", "bob:pb"])).run
        [Action.connect 5 (some "alice\n") (some "pa\n"),
         Action.receive 5 (some "/create_group team\n"),
         Action.connect 7 (some "bob\n") (some "pb\n"),
         Action.receive 7 (some "/join_group team\n")]).st
      = { registered_users := [("alice", "pa"), ("bob", "pb")],
          connected_clients := [(5, "alice"), (7, "bob")],
          chat_groups := [("team", [5, 7])] }
    ∧ sent_to 7 (command_step
        { registered_users := [("alice", "pa"), ("bob", "pb")],
          connected_clients := [(5, "alice"), (7, "bob")],
          chat_groups := [("team", [5, 7])] } 5 (some "/group_msg team hi\n")).2.1
      = ["[Group: team] alice: hi"]
    ∧ sent_to 5 (command_step
        { registered_users := [("alice", "pa"), ("bob", "pb")],
          connected_clients := [(5, "alice"), (7, "bob")],
          chat_groups := [("team", [5, 7])] } 5 (some "/group_msg team hi\n")).2.1
      = ["[Group: team] You: hi"] := by
  have h := send_group_delivery
    { registered_users := [("alice", "pa"), ("bob", "pb")],
      connected_clients := [(5, "alice"), (7, "bob")],
      chat_groups := [("team", [5, 7])] } 5 "team" "alice" "hi" [5, 7]
    (by rfl) (by decide) (by decide) (by rfl)
  have hc := h.2.2.2 "/group_msg team hi\n" 15 (by rfl) (by rfl) (by rfl) (by rfl)
  refine ⟨by rfl, ?_, ?_⟩
  · rw [hc]; exact h.2.1 7 (by decide) (by decide)
  · rw [hc]; exact h.1

/-- C14: when `s` is registered under `u`, `broadcast_all t s` sends
`[Broadcast] <u>: <t>` exactly once to every key of `connected_clients` other
than `s`, nothing to `s`, and nothing to a socket that is not a key; and every
command line the loop parses as `/broadcast` produces the trace of
`broadcast_all` on its trimmed text.  (The registry has no repeated key, as in
every `std::unordered_map`.) -/
theorem broadcast_all_delivery (st : State) (s : Socket) (u t : String)
    (hu : UMap.find st.connected_clients s = some u)
    (hnd : (UMap.keys st.connected_clients).Nodup) :
    (∀ x : Socket, x ∈ UMap.keys st.connected_clients → x ≠ s →
        sent_to x (broadcast_all st t s).2 = ["[Broadcast] " ++ u ++ ": " ++ t])
      ∧ sent_to s (broadcast_all st t s).2 = []
      ∧ (∀ x : Socket, x ∉ UMap.keys st.connected_clients →
          sent_to x (broadcast_all st t s).2 = [])
      ∧ ∀ buffer : String, starts_with (strip buffer) "/broadcast " = true →
          (command_step st s (some buffer)).2.1
            = (broadcast_all st (strip (substr_from (strip buffer) 11)) s).2 := by
  have htrace : ∀ x : Socket, sent_to x (broadcast_all st t s).2
      = if x ≠ s ∧ x ∈ UMap.keys st.connected_clients
        then ["[Broadcast] " ++ u ++ ": " ++ t] else [] := by
    intro x
    have hfm := sent_to_flatMap st.connected_clients Prod.fst s x
      ("[Broadcast] " ++ u ++ ": " ++ t) hnd
    have e : (broadcast_all st t s).2
        = [Event.acquire Mutex.clients_lock]
          ++ (st.connected_clients.flatMap (fun e =>
              if e.1 ≠ s then send_to_client e.1 ("[Broadcast] " ++ u ++ ": " ++ t)
              else []))
          ++ [Event.release Mutex.clients_lock] := by
      simp [broadcast_all, UMap.subscript_of_find _ _ _ _ hu]
    rw [e, sent_to_append, sent_to_append, hfm]
    simp [sent_to, sends, UMap.keys]
  refine ⟨?_, ?_, ?_, ?_⟩
  · intro x hx hxs
    rw [htrace]; simp [hx, hxs]
  · rw [htrace]; simp
  · intro x hx
    rw [htrace]; simp [hx]
  · intro buffer hb
    rw [command_step_broadcast st s buffer hb]

/-- C14 at a concrete state: alice on socket 5 broadcasts `hello` while bob
(socket 6) and carol (socket 7) are online. -/
theorem broadcast_all_delivery_witness :
    UMap.find [((5 : Socket), "alice"), (6, "bob"), (7, "carol")] 5 = some "alice"
      ∧ (UMap.keys [((5 : Socket), "alice"), (6, "bob"), (7, "carol")]).Nodup
      ∧ sends (command_step
          { registered_users := [],
            connected_clients := [(5, "alice"), (6, "bob"), (7, "carol")],
            chat_groups := [] } 5 (some "/broadcast hello\n")).2.1
        = [(6, "[Broadcast] alice: hello"), (7, "[Broadcast] alice: hello")]
      ∧ sent_to 5 (broadcast_all
          { registered_users := [],
            connected_clients := [(5, "alice"), (6, "bob"), (7, "carol")],
            chat_groups := [] } "hello" 5).2 = [] :=
  ⟨by rfl, by decide, by rfl,
    (broadcast_all_delivery
      { registered_users := [],
        connected_clients := [(5, "alice"), (6, "bob"), (7, "carol")],
        chat_groups := [] } 5 "alice" "hello" (by rfl) (by decide)).2.1⟩

/-! ## Authentication -/

theorem credentials_rejected_iff (users : UMap String String) (u p : String) :
    (UMap.count users u = 0 ∨ (UMap.subscript users u "").1 ≠ p)
      ↔ UMap.find users u ≠ some p := by
  cases hf : UMap.find users u with
  | none => simp [(UMap.count_eq_zero_iff users u).2 hf]
  | some v =>
    simp [UMap.count_of_find _ _ _ hf, UMap.subscript_of_find _ _ _ _ hf]

theorem client_session_login_bad_credentials (st : State) (s : Socket)
    (buffer1 buffer2 : String)
    (h : UMap.find st.registered_users (strip buffer1) ≠ some (strip buffer2)) :
    client_session_login st s (some buffer1) (some buffer2) =
      (st, [Event.send s "Please enter your username: ",
            Event.send s "Enter your password: ",
            Event.send s "Login failed. Disconnecting.\n",
            Event.close s], false) := by
  have hc := (credentials_rejected_iff st.registered_users _ _).2 h
  simp only [client_session_login, hc, if_true, send_to_client]
  rfl

theorem client_session_login_already_active (st : State) (s : Socket)
    (buffer1 buffer2 : String)
    (h : UMap.find st.registered_users (strip buffer1) = some (strip buffer2))
    (hact : ∃ e ∈ st.connected_clients, e.2 = strip buffer1) :
    client_session_login st s (some buffer1) (some buffer2) =
      (st, [Event.send s "Please enter your username: ",
            Event.send s "Enter your password: ",
            Event.acquire Mutex.clients_lock,
            Event.send s "Error: This user is already active.\n",
            Event.close s, Event.release Mutex.clients_lock], false) := by
  have hc : ¬ (UMap.count st.registered_users (strip buffer1) = 0
      ∨ (UMap.subscript st.registered_users (strip buffer1) "").1 ≠ strip buffer2) := by
    rw [credentials_rejected_iff]; exact fun q => q h
  have hany : st.connected_clients.any
      (fun item => decide (item.2 = strip buffer1)) = true := by
    obtain ⟨e, he, heq⟩ := hact
    simp only [List.any_eq_true, decide_eq_true_eq]
    exact ⟨e, he, heq⟩
  simp only [client_session_login, hc, if_false, hany, if_true, send_to_client]
  rfl

theorem client_session_login_success (st : State) (s : Socket)
    (buffer1 buffer2 : String)
    (h : UMap.find st.registered_users (strip buffer1) = some (strip buffer2))
    (hact : ∀ e ∈ st.connected_clients, e.2 ≠ strip buffer1) :
    (client_session_login st s (some buffer1) (some buffer2)).1
        = { st with connected_clients :=
              UMap.assign st.connected_clients s (strip buffer1) }
      ∧ (client_session_login st s (some buffer1) (some buffer2)).2.2 = true := by
  have hc : ¬ (UMap.count st.registered_users (strip buffer1) = 0
      ∨ (UMap.subscript st.registered_users (strip buffer1) "").1 ≠ strip buffer2) := by
    rw [credentials_rejected_iff]; exact fun q => q h
  have hany : ¬ st.connected_clients.any
      (fun item => decide (item.2 = strip buffer1)) = true := by
    simp only [List.any_eq_true, decide_eq_true_eq, not_exists, not_and]
    exact hact
  have hsub := UMap.subscript_of_find
    (UMap.assign st.connected_clients s (strip buffer1)) s (strip buffer1) ""
    (UMap.find_assign_self _ _ _)
  simp only [client_session_login, hc, if_false, hany, broadcast_all, hsub]
  exact ⟨rfl, rfl⟩

/-- C15: on the username `u` and password `p` read from the client (the two
received texts, trimmed), the login steps register the session, that is
perform `connected_clients[s] = u` and go on to the command loop, exactly when
the credentials map `u` to `p` and no entry of `connected_clients` has username
`u`; `chat_groups` is then unchanged.  Otherwise the state is unchanged and,
after the two prompts, `s` is sent exactly one message:
`Login failed. Disconnecting.` when the credentials do not map `u` to `p`, and
the different text `Error: This user is already active.` when they do and an
entry already has username `u`. -/
theorem login_registers_iff (st : State) (s : Socket) (buffer1 buffer2 : String) :
    ((client_session_login st s (some buffer1) (some buffer2)).2.2 = true
        ↔ (UMap.find st.registered_users (strip buffer1) = some (strip buffer2)
            ∧ ∀ e ∈ st.connected_clients, e.2 ≠ strip buffer1))
      ∧ ((client_session_login st s (some buffer1) (some buffer2)).2.2 = true →
          (client_session_login st s (some buffer1) (some buffer2)).1
              = { st with connected_clients :=
                    UMap.assign st.connected_clients s (strip buffer1) }
            ∧ UMap.find (client_session_login st s (some buffer1) (some buffer2)).1.connected_clients
                s = some (strip buffer1))
      ∧ ((client_session_login st s (some buffer1) (some buffer2)).2.2 = false →
          (client_session_login st s (some buffer1) (some buffer2)).1 = st)
      ∧ (UMap.find st.registered_users (strip buffer1) ≠ some (strip buffer2) →
          sends (client_session_login st s (some buffer1) (some buffer2)).2.1
            = [(s, "Please enter your username: "), (s, "Enter your password: "),
               (s, "Login failed. Disconnecting.\n")])
      ∧ (UMap.find st.registered_users (strip buffer1) = some (strip buffer2) →
          (∃ e ∈ st.connected_clients, e.2 = strip buffer1) →
          sends (client_session_login st s (some buffer1) (some buffer2)).2.1
            = [(s, "Please enter your username: "), (s, "Enter your password: "),
               (s, "Error: This user is already active.\n")])
      ∧ ("Login failed. Disconnecting.\n" : String)
          ≠ "Error: This user is already active.\n" := by
  have key : (UMap.find st.registered_users (strip buffer1) ≠ some (strip buffer2)
        ∧ client_session_login st s (some buffer1) (some buffer2) =
          (st, [Event.send s "Please enter your username: ",
            Event.send s "Enter your password: ",
            Event.send s "Login failed. Disconnecting.\n",
            Event.close s], false))
      ∨ (UMap.find st.registered_users (strip buffer1) = some (strip buffer2)
        ∧ (∃ e ∈ st.connected_clients, e.2 = strip buffer1)
        ∧ client_session_login st s (some buffer1) (some buffer2) =
          (st, [Event.send s "Please enter your username: ",
            Event.send s "Enter your password: ",
            Event.acquire Mutex.clients_lock,
            Event.send s "Error: This user is already active.\n",
            Event.close s, Event.release Mutex.clients_lock], false))
      ∨ (UMap.find st.registered_users (strip buffer1) = some (strip buffer2)
        ∧ (∀ e ∈ st.connected_clients, e.2 ≠ strip buffer1)
        ∧ (client_session_login st s (some buffer1) (some buffer2)).1
            = { st with connected_clients :=
                  UMap.assign st.connected_clients s (strip buffer1) }
        ∧ (client_session_login st s (some buffer1) (some buffer2)).2.2 = true) := by
    by_cases hcred : UMap.find st.registered_users (strip buffer1) = some (strip buffer2)
    · by_cases hact : ∃ e ∈ st.connected_clients, e.2 = strip buffer1
      · exact Or.inr (Or.inl ⟨hcred, hact,
          client_session_login_already_active st s buffer1 buffer2 hcred hact⟩)
      · have hact' : ∀ e ∈ st.connected_clients, e.2 ≠ strip buffer1 :=
          fun e he q => hact ⟨e, he, q⟩
        have hs := client_session_login_success st s buffer1 buffer2 hcred hact'
        exact Or.inr (Or.inr ⟨hcred, hact', hs.1, hs.2⟩)
    · exact Or.inl ⟨hcred,
        client_session_login_bad_credentials st s buffer1 buffer2 hcred⟩
  refine ⟨?_, ?_, ?_, ?_, ?_, by decide⟩
  · rcases key with ⟨hc, e⟩ | ⟨hc, ha, e⟩ | ⟨hc, ha, _, e2⟩
    · rw [e]
      constructor
      · intro q; simp at q
      · intro q; exact absurd q.1 hc
    · rw [e]
      constructor
      · intro q; simp at q
      · intro q
        obtain ⟨x, hx, hxe⟩ := ha
        exact absurd hxe (q.2 x hx)
    · exact ⟨fun _ => ⟨hc, ha⟩, fun _ => e2⟩
  · intro hok
    rcases key with ⟨_, e⟩ | ⟨_, _, e⟩ | ⟨_, _, e1, _⟩
    · rw [e] at hok; simp at hok
    · rw [e] at hok; simp at hok
    · rw [e1]
      exact ⟨rfl, UMap.find_assign_self _ _ _⟩
  · intro hfail
    rcases key with ⟨_, e⟩ | ⟨_, _, e⟩ | ⟨_, _, _, e2⟩
    · rw [e]
    · rw [e]
    · rw [e2] at hfail; simp at hfail
  · intro hc
    rw [client_session_login_bad_credentials st s buffer1 buffer2 hc]
    rfl
  · intro hc ha
    rw [client_session_login_already_active st s buffer1 buffer2 hc ha]
    rfl

/-- C15 at the scenario of the specification: carol is online on socket 5 and a
second connection, socket 6, authenticates as carol; and a connection with a
wrong password. -/
theorem login_registers_iff_witness :
    client_session_login
        { registered_users := [("carol", "pc")], connected_clients := [(5, "carol")],
          chat_groups := [] } 6 (some "carol\n") (some "pc\n")
      = ({ registered_users := [("carol", "pc")], connected_clients := [(5, "carol")],
           chat_groups := [] },
         [Event.send 6 "Please enter your username: ",
          Event.send 6 "Enter your password: ",
          Event.acquire Mutex.clients_lock,
          Event.send 6 "Error: This user is already active.\n",
          Event.close 6, Event.release Mutex.clients_lock], false)
    ∧ sends (client_session_login
        { registered_users := [("carol", "pc")], connected_clients := [],
          chat_groups := [] } 6 (some "carol\n") (some "wrong\n")).2.1
      = [(6, "Please enter your username: "), (6, "Enter your password: "),
         (6, "Login failed. Disconnecting.\n")]
    ∧ (client_session_login
        { registered_users := [("carol", "pc")], connected_clients := [],
          chat_groups := [] } 6 (some "carol\n") (some "pc\n")).1.connected_clients
      = [(6, "carol")] :=
  ⟨by rfl,
    (login_registers_iff
      { registered_users := [("carol", "pc")], connected_clients := [],
        chat_groups := [] } 6 "carol\n" "wrong\n").2.2.2.1 (by decide),
    by rfl⟩

/-! ## Groups are never destroyed -/

theorem disconnect_client_group_keys (st : State) (s : Socket) :
    UMap.keys (disconnect_client st s).1.chat_groups = UMap.keys st.chat_groups := by
  cases h : UMap.find st.connected_clients s with
  | none => rw [disconnect_client_absent st s h]
  | some u =>
    by_cases hu : u = ""
    · subst hu
      rw [disconnect_client_empty_name st s h]
    · rw [disconnect_client_registered st s u h hu]
      simp [UMap.keys, List.map_map, Function.comp_def]

theorem create_group_group_keys (st : State) (s : Socket) (gname g : String)
    (hg : g ∈ UMap.keys st.chat_groups) :
    g ∈ UMap.keys (create_group st s gname).1.chat_groups := by
  by_cases hk : gname ∈ UMap.keys st.chat_groups
  · rw [create_group_of_key st s gname hk]; exact hg
  · rw [create_group_of_not_key st s gname hk]
    simp only [UMap.keys, List.map_append, List.mem_append]
    exact Or.inl hg

theorem join_group_group_keys (st : State) (s : Socket) (gname g : String)
    (hg : g ∈ UMap.keys st.chat_groups) :
    g ∈ UMap.keys (join_group st s gname).1.chat_groups := by
  cases hf : UMap.find st.chat_groups gname with
  | none =>
    rw [join_group_of_not_key st s gname ((UMap.find_eq_none_iff _ _).1 hf)]
    exact hg
  | some members =>
    rw [join_group_of_find st s gname members hf]
    exact (UMap.keys_assign _ _ _ _).2 (Or.inr hg)

theorem leave_group_group_keys (st : State) (s : Socket) (gname g : String)
    (hg : g ∈ UMap.keys st.chat_groups) :
    g ∈ UMap.keys (leave_group st s gname).1.chat_groups := by
  cases hf : UMap.find st.chat_groups gname with
  | none =>
    rw [leave_group_of_not_key st s gname ((UMap.find_eq_none_iff _ _).1 hf)]
    exact hg
  | some members =>
    have hst : (leave_group st s gname).1.chat_groups
        = UMap.assign st.chat_groups gname (set_erase members s) := by
      unfold leave_group
      rw [hf]
      simp only []
      split <;> rfl
    rw [hst]
    exact (UMap.keys_assign _ _ _ _).2 (Or.inr hg)

theorem command_step_group_keys (st : State) (s : Socket) (received : Option String)
    (g : String) (hg : g ∈ UMap.keys st.chat_groups) :
    g ∈ UMap.keys (command_step st s received).1.chat_groups := by
  apply command_step_cases (fun r => g ∈ UMap.keys r.1.chat_groups)
  · exact hg
  · show g ∈ UMap.keys (disconnect_client st s).1.chat_groups
    rw [disconnect_client_group_keys]; exact hg
  · intro msg; exact hg
  · intro recp msg
    show g ∈ UMap.keys (send_private st s recp msg).1.chat_groups
    rw [(send_private_groups st s recp msg).1]; exact hg
  · intro msg; exact hg
  · intro gname; exact create_group_group_keys st s gname g hg
  · intro gname; exact join_group_group_keys st s gname g hg
  · intro gname; exact leave_group_group_keys st s gname g hg
  · intro gname msg
    show g ∈ UMap.keys (send_group st s gname msg).1.chat_groups
    rw [(send_group_groups st s gname msg).1]; exact hg
  · show g ∈ UMap.keys (list_groups st s).1.chat_groups
    rw [list_groups_state]; exact hg
  · intro gname
    show g ∈ UMap.keys (list_members st s gname).1.chat_groups
    rw [(list_members_groups st s gname).1]; exact hg

/-- C16: every group name that is a key of `chat_groups` before a step is a key
after it, for each kind of step: the login steps on any two received texts,
any iteration of the command loop (any command, a read failure or `/exit`),
`disconnect_client`, and so any action of the server. -/
theorem groups_never_destroyed (st : State) (s : Socket) (g : String)
    (hg : g ∈ UMap.keys st.chat_groups) :
    (∀ recv1 recv2 : Option String,
        g ∈ UMap.keys (client_session_login st s recv1 recv2).1.chat_groups)
      ∧ (∀ received : Option String,
          g ∈ UMap.keys (command_step st s received).1.chat_groups)
      ∧ g ∈ UMap.keys (disconnect_client st s).1.chat_groups
      ∧ ∀ (active : List Socket) (a : Action),
          g ∈ UMap.keys
            ((Server.step { st := st, active := active } a).1).st.chat_groups := by
  have hlogin : ∀ (x : Socket) (recv1 recv2 : Option String),
      g ∈ UMap.keys (client_session_login st x recv1 recv2).1.chat_groups := by
    intro x recv1 recv2
    rw [(client_session_login_effect st x recv1 recv2).2.1]; exact hg
  refine ⟨hlogin s, fun received => command_step_group_keys st s received g hg, ?_, ?_⟩
  · rw [disconnect_client_group_keys]; exact hg
  · intro active a
    cases a with
    | connect x recv1 recv2 =>
      by_cases hx : x ∈ active
      · simpa [Server.step, hx] using hg
      · simpa [Server.step, hx] using hlogin x recv1 recv2
    | receive x received =>
      by_cases hx : x ∈ active
      · simpa [Server.step, hx] using command_step_group_keys st x received g hg
      · simpa [Server.step, hx] using hg

/-- C16 at a concrete state: socket 5, the last member of `g`, leaves it and
then disconnects; `g` stays a key with an empty member set. -/
theorem groups_never_destroyed_witness :
    "g" ∈ UMap.keys [("g", [(5 : Socket)])]
      ∧ (command_step
          { registered_users := [], connected_clients := [(5, "alice")],
            chat_groups := [("g", [5])] } 5 (some "/leave_group g\n")).1.chat_groups
        = [("g", [])]
      ∧ "g" ∈ UMap.keys (command_step
          { registered_users := [], connected_clients := [(5, "alice")],
            chat_groups := [("g", [5])] } 5 (some "/leave_group g\n")).1.chat_groups
      ∧ (disconnect_client
          { registered_users := [], connected_clients := [(5, "alice")],
            chat_groups := [("g", [5])] } 5).1.chat_groups = [("g", [])] :=
  ⟨by decide, by rfl,
    (groups_never_destroyed
      { registered_users := [], connected_clients := [(5, "alice")],
        chat_groups := [("g", [5])] } 5 "g" (by decide)).2.1 (some "/leave_group g\n"),
    by rfl⟩

/-! ## The `operator[]` reads of the router -/

theorem UMap.erase_append_self {κ ν : Type} [DecidableEq κ] (m : UMap κ ν) (k : κ) (v : ν) :
    UMap.erase (UMap.erase m k ++ [(k, v)]) k = UMap.erase m k := by
  simp [UMap.erase, List.filter_append, List.filter_filter]

theorem append_singleton_ne {α : Type} (l : List α) (x : α) : l ++ [x] ≠ l := by
  intro h
  have := congrArg List.length h
  simp at this

/-- With a registered sender the three router functions read
`connected_clients[sender]` without inserting: the state is unchanged. -/
theorem router_state_of_registered (st : State) (s : Socket) (u : String)
    (hu : UMap.find st.connected_clients s = some u) (a b : String) :
    (broadcast_all st a s).1 = st
      ∧ (send_private st s a b).1 = st
      ∧ (send_group st s a b).1 = st := by
  have hsub := UMap.subscript_of_find st.connected_clients s u "" hu
  refine ⟨?_, ?_, ?_⟩
  · simp [broadcast_all, hsub]
  · unfold send_private
    split
    · simp [hsub]
    · rfl
  · unfold send_group
    split
    · rfl
    · split
      · rfl
      · simp [hsub]

/-- C17, code defect: for a socket `s` registered under a non-empty username,
the first `disconnect_client s` leaves the registry as the old one without `s`
plus the entry `s ↦ ""` (the `operator[]` read in `broadcast_all`); the second
call finds that entry, erases it, and so changes `connected_clients`.  It
leaves `chat_groups` as it was and sends no message. -/
theorem second_disconnect_changes_registry (st : State) (s : Socket) (u : String)
    (h : UMap.find st.connected_clients s = some u) (hu : u ≠ "") :
    (disconnect_client st s).1.connected_clients
        = UMap.erase st.connected_clients s ++ [(s, "")]
      ∧ (disconnect_client (disconnect_client st s).1 s).1.connected_clients
          = UMap.erase st.connected_clients s
      ∧ (disconnect_client (disconnect_client st s).1 s).1.connected_clients
          ≠ (disconnect_client st s).1.connected_clients
      ∧ (disconnect_client (disconnect_client st s).1 s).1.chat_groups
          = (disconnect_client st s).1.chat_groups
      ∧ sends (disconnect_client (disconnect_client st s).1 s).2 = [] := by
  have h1 := disconnect_client_registered st s u h hu
  have hstale : UMap.find (disconnect_client st s).1.connected_clients s = some "" := by
    rw [h1]
    simp [UMap.find_append, UMap.find_erase_self, UMap.find]
  have h2 := disconnect_client_empty_name (disconnect_client st s).1 s hstale
  have hcc : (disconnect_client (disconnect_client st s).1 s).1.connected_clients
      = UMap.erase st.connected_clients s := by
    rw [h2]
    show UMap.erase (disconnect_client st s).1.connected_clients s = _
    rw [h1]
    exact UMap.erase_append_self _ _ _
  refine ⟨by rw [h1], hcc, ?_, by rw [h2], by rw [h2]; rfl⟩
  rw [hcc, h1]
  exact fun q => append_singleton_ne _ _ q.symm

/-- C17 at a concrete registry: after the first `disconnect_client 5` the
registry is `7 ↦ "bob"`, `5 ↦ ""`; after the second it is `7 ↦ "bob"`. -/
theorem second_disconnect_changes_registry_witness :
    UMap.find [((5 : Socket), "alice"), (7, "bob")] 5 = some "alice"
      ∧ (disconnect_client
          { registered_users := [], connected_clients := [(5, "alice"), (7, "bob")],
            chat_groups := [] } 5).1.connected_clients = [(7, "bob"), (5, "")]
      ∧ (disconnect_client (disconnect_client
          { registered_users := [], connected_clients := [(5, "alice"), (7, "bob")],
            chat_groups := [] } 5).1 5).1.connected_clients = [(7, "bob")]
      ∧ (disconnect_client (disconnect_client
          { registered_users := [], connected_clients := [(5, "alice"), (7, "bob")],
            chat_groups := [] } 5).1 5).1.connected_clients
        ≠ (disconnect_client
          { registered_users := [], connected_clients := [(5, "alice"), (7, "bob")],
            chat_groups := [] } 5).1.connected_clients :=
  ⟨by rfl, by rfl, by rfl,
    (second_disconnect_changes_registry
      { registered_users := [], connected_clients := [(5, "alice"), (7, "bob")],
        chat_groups := [] } 5 "alice" (by rfl) (by decide)).2.2.1⟩

/-- C18, code defect: for a sender `s` that is not a key of
`connected_clients`, `broadcast_all` changes the registry, adding the entry
`s ↦ ""` through its read `connected_clients[from_socket]`; so does
`send_private` whenever the recipient is online, and `send_group` whenever `s`
is a member of the group.  (`chat_groups` is unchanged by all three.) -/
theorem router_inserts_unregistered_sender (st : State) (s : Socket) (a b : String)
    (h : s ∉ UMap.keys st.connected_clients) :
    (broadcast_all st a s).1.connected_clients = st.connected_clients ++ [(s, "")]
      ∧ (broadcast_all st a s).1.connected_clients ≠ st.connected_clients
      ∧ ((∃ e ∈ st.connected_clients, e.2 = a) →
          (send_private st s a b).1.connected_clients = st.connected_clients ++ [(s, "")])
      ∧ ((∃ members, UMap.find st.chat_groups a = some members ∧ s ∈ members) →
          (send_group st s a b).1.connected_clients = st.connected_clients ++ [(s, "")])
      ∧ (broadcast_all st a s).1.chat_groups = st.chat_groups
      ∧ (send_private st s a b).1.chat_groups = st.chat_groups
      ∧ (send_group st s a b).1.chat_groups = st.chat_groups := by
  have hn := (UMap.find_eq_none_iff st.connected_clients s).2 h
  have hsub := UMap.subscript_of_none st.connected_clients s "" hn
  have hb : (broadcast_all st a s).1.connected_clients
      = st.connected_clients ++ [(s, "")] := by
    simp [broadcast_all, hsub]
  refine ⟨hb, ?_, ?_, ?_, rfl, (send_private_groups st s a b).1,
    (send_group_groups st s a b).1⟩
  · rw [hb]; exact append_singleton_ne _ _
  · rintro ⟨e, he, hea⟩
    cases hf : st.connected_clients.find? (fun e => decide (e.2 = a)) with
    | none =>
      rw [List.find?_eq_none] at hf
      have := hf e he
      simp [hea] at this
    | some e' => simp [send_private, hf, hsub]
  · rintro ⟨members, hg, hs⟩
    simp [send_group, hg, hs, hsub]

/-- C18 at concrete states: `broadcast_all` as `disconnect_client 5` calls it,
after the entry of socket 5 has been erased; `send_private` from socket 5 that
is not registered; `send_group` from a member that is not registered. -/
theorem router_inserts_unregistered_sender_witness :
    (5 : Socket) ∉ UMap.keys [((7 : Socket), "bob")]
      ∧ (broadcast_all
          { registered_users := [], connected_clients := [(7, "bob")],
            chat_groups := [] } "alice left the chat." 5).1.connected_clients
        = [(7, "bob"), (5, "")]
      ∧ (send_private
          { registered_users := [], connected_clients := [(7, "bob")],
            chat_groups := [] } 5 "bob" "hi").1.connected_clients
        = [(7, "bob"), (5, "")]
      ∧ (send_group
          { registered_users := [], connected_clients := [(7, "bob")],
            chat_groups := [("g", [5])] } 5 "g" "hi").1.connected_clients
        = [(7, "bob"), (5, "")]
      ∧ (broadcast_all
          { registered_users := [], connected_clients := [(7, "bob")],
            chat_groups := [] } "alice left the chat." 5).1.connected_clients
        ≠ [(7, "bob")] :=
  ⟨by decide, by rfl, by rfl, by rfl,
    (router_inserts_unregistered_sender
      { registered_users := [], connected_clients := [(7, "bob")],
        chat_groups := [] } 5 "alice left the chat." "" (by decide)).2.1⟩

/-! ## The containers stay free of repetitions -/

theorem UMap.keys_subscript_nodup {κ ν : Type} [DecidableEq κ] (m : UMap κ ν) (k : κ)
    (d : ν) (h : (UMap.keys m).Nodup) : (UMap.keys (UMap.subscript m k d).2).Nodup := by
  unfold UMap.subscript
  cases hf : UMap.find m k with
  | some v => exact h
  | none =>
    have hk := (UMap.find_eq_none_iff m k).1 hf
    simp only [UMap.keys, List.map_append, List.map_cons, List.map_nil]
    rw [List.nodup_append]
    refine ⟨h, List.nodup_singleton k, ?_⟩
    intro a ha hb
    rw [List.mem_singleton] at hb
    subst hb
    exact hk ha

theorem UMap.keys_erase_nodup {κ ν : Type} [DecidableEq κ] (m : UMap κ ν) (k : κ)
    (h : (UMap.keys m).Nodup) : (UMap.keys (UMap.erase m k)).Nodup := by
  unfold UMap.keys UMap.erase
  exact List.Nodup.sublist (List.Sublist.map _ (List.filter_sublist m)) h

theorem UMap.keys_assign_of_mem {κ ν : Type} [DecidableEq κ] (m : UMap κ ν) (k : κ)
    (v : ν) (h : k ∈ UMap.keys m) : UMap.keys (UMap.assign m k v) = UMap.keys m := by
  induction m with
  | nil => simp [UMap.keys] at h
  | cons e rest ih =>
    obtain ⟨k0, v0⟩ := e
    by_cases hk : k0 = k
    · simp [UMap.assign, UMap.keys, hk]
    · have hrest : k ∈ UMap.keys rest := by
        simp only [UMap.keys, List.map_cons, List.mem_cons] at h
        rcases h with h | h
        · exact absurd h.symm hk
        · exact h
      have := ih hrest
      simp only [UMap.keys] at this
      simp [UMap.assign, UMap.keys, hk, this]

theorem UMap.keys_assign_of_not_mem {κ ν : Type} [DecidableEq κ] (m : UMap κ ν) (k : κ)
    (v : ν) (h : k ∉ UMap.keys m) :
    UMap.keys (UMap.assign m k v) = UMap.keys m ++ [k] := by
  induction m with
  | nil => simp [UMap.assign, UMap.keys]
  | cons e rest ih =>
    obtain ⟨k0, v0⟩ := e
    simp only [UMap.keys, List.map_cons, List.mem_cons, not_or] at h
    have hk : ¬ k0 = k := fun q => h.1 q.symm
    have := ih h.2
    simp only [UMap.keys] at this
    simp [UMap.assign, UMap.keys, hk, this]

theorem UMap.keys_assign_nodup {κ ν : Type} [DecidableEq κ] (m : UMap κ ν) (k : κ)
    (v : ν) (h : (UMap.keys m).Nodup) : (UMap.keys (UMap.assign m k v)).Nodup := by
  by_cases hk : k ∈ UMap.keys m
  · rw [UMap.keys_assign_of_mem m k v hk]; exact h
  · rw [UMap.keys_assign_of_not_mem m k v hk, List.nodup_append]
    refine ⟨h, List.nodup_singleton k, ?_⟩
    intro a ha hb
    rw [List.mem_singleton] at hb
    subst hb
    exact hk ha

theorem set_insert_nodup (members : List Socket) (s : Socket) (h : members.Nodup) :
    (set_insert members s).Nodup := by
  unfold set_insert
  split
  · exact h
  · rename_i hs
    rw [List.nodup_append]
    refine ⟨h, List.nodup_singleton s, ?_⟩
    intro a ha hb
    rw [List.mem_singleton] at hb
    subst hb
    exact hs ha

theorem set_erase_nodup (members : List Socket) (s : Socket) (h : members.Nodup) :
    (set_erase members s).Nodup :=
  List.Nodup.sublist (List.filter_sublist members) h

theorem list_members_fold_nodup (members : List Socket) (acc : String × UMap Socket String)
    (h : (UMap.keys acc.2).Nodup) :
    (UMap.keys (members.foldl
        (fun (acc : String × UMap Socket String) sock =>
          let q := UMap.subscript acc.2 sock ""
          (acc.1 ++ "  - " ++ q.1 ++ "\n", q.2)) acc).2).Nodup := by
  induction members generalizing acc with
  | nil => exact h
  | cons x xs ih =>
    simp only [List.foldl_cons]
    exact ih _ (UMap.keys_subscript_nodup acc.2 x "" h)

theorem broadcast_all_wf (st : State) (msg : String) (s : Socket) (h : st.wf) :
    (broadcast_all st msg s).1.wf :=
  ⟨UMap.keys_subscript_nodup st.connected_clients s "" h.1, h.2.1, h.2.2⟩

theorem send_private_wf (st : State) (s : Socket) (recp msg : String) (h : st.wf) :
    (send_private st s recp msg).1.wf := by
  unfold send_private
  split
  · exact ⟨UMap.keys_subscript_nodup st.connected_clients s "" h.1, h.2.1, h.2.2⟩
  · exact h

theorem send_group_wf (st : State) (s : Socket) (g msg : String) (h : st.wf) :
    (send_group st s g msg).1.wf := by
  unfold send_group
  split
  · exact h
  · split
    · exact h
    · exact ⟨UMap.keys_subscript_nodup st.connected_clients s "" h.1, h.2.1, h.2.2⟩

theorem list_members_wf (st : State) (s : Socket) (g : String) (h : st.wf) :
    (list_members st s g).1.wf := by
  unfold list_members
  split
  · exact h
  · exact ⟨list_members_fold_nodup _ _ h.1, h.2.1, h.2.2⟩

theorem create_group_wf (st : State) (s : Socket) (g : String) (h : st.wf) :
    (create_group st s g).1.wf := by
  by_cases hk : g ∈ UMap.keys st.chat_groups
  · rw [create_group_of_key st s g hk]; exact h
  · rw [create_group_of_not_key st s g hk]
    refine ⟨h.1, ?_, ?_⟩
    · show (UMap.keys (st.chat_groups ++ [(g, [s])])).Nodup
      simp only [UMap.keys, List.map_append, List.map_cons, List.map_nil]
      rw [List.nodup_append]
      refine ⟨h.2.1, List.nodup_singleton g, ?_⟩
      intro a ha hb
      rw [List.mem_singleton] at hb
      subst hb
      exact hk ha
    · intro g' ms hm
      have hm' : (g', ms) ∈ st.chat_groups ∨ (g', ms) = (g, [s]) := by
        simpa using hm
      rcases hm' with hm' | hm'
      · exact h.2.2 g' ms hm'
      · simp only [Prod.mk.injEq] at hm'
        rw [hm'.2]
        exact List.nodup_singleton s

theorem join_group_wf (st : State) (s : Socket) (g : String) (h : st.wf) :
    (join_group st s g).1.wf := by
  cases hf : UMap.find st.chat_groups g with
  | none =>
    rw [join_group_of_not_key st s g ((UMap.find_eq_none_iff _ _).1 hf)]; exact h
  | some members =>
    rw [join_group_of_find st s g members hf]
    refine ⟨h.1, UMap.keys_assign_nodup _ _ _ h.2.1, ?_⟩
    intro g' ms hm
    rcases UMap.assign_entries _ _ _ _ hm with hm' | hm'
    · exact h.2.2 g' ms hm'
    · simp only [Prod.mk.injEq] at hm'
      rw [hm'.2]
      exact set_insert_nodup members s (h.2.2 g members (UMap.mem_of_find _ _ _ hf))

theorem leave_group_wf (st : State) (s : Socket) (g : String) (h : st.wf) :
    (leave_group st s g).1.wf := by
  cases hf : UMap.find st.chat_groups g with
  | none =>
    rw [leave_group_of_not_key st s g ((UMap.find_eq_none_iff _ _).1 hf)]; exact h
  | some members =>
    have hst : (leave_group st s g).1
        = { st with chat_groups :=
              UMap.assign st.chat_groups g (set_erase members s) } := by
      unfold leave_group
      rw [hf]
      simp only []
      split <;> rfl
    rw [hst]
    refine ⟨h.1, UMap.keys_assign_nodup _ _ _ h.2.1, ?_⟩
    intro g' ms hm
    rcases UMap.assign_entries _ _ _ _ hm with hm' | hm'
    · exact h.2.2 g' ms hm'
    · simp only [Prod.mk.injEq] at hm'
      rw [hm'.2]
      exact set_erase_nodup members s (h.2.2 g members (UMap.mem_of_find _ _ _ hf))

theorem disconnect_client_wf (st : State) (s : Socket) (h : st.wf) :
    (disconnect_client st s).1.wf := by
  cases hs : UMap.find st.connected_clients s with
  | none => rw [disconnect_client_absent st s hs]; exact h
  | some u =>
    by_cases hu : u = ""
    · subst hu
      rw [disconnect_client_empty_name st s hs]
      exact ⟨UMap.keys_erase_nodup _ _ h.1, h.2.1, h.2.2⟩
    · rw [disconnect_client_registered st s u hs hu]
      refine ⟨?_, ?_, ?_⟩
      · have he := UMap.find_erase_self st.connected_clients s
        have := UMap.keys_subscript_nodup (UMap.erase st.connected_clients s) s ""
          (UMap.keys_erase_nodup _ _ h.1)
        rw [UMap.subscript_of_none _ _ _ he] at this
        exact this
      · have hk := disconnect_client_group_keys st s
        rw [disconnect_client_registered st s u hs hu] at hk
        show (UMap.keys (st.chat_groups.map (fun gp => (gp.1, set_erase gp.2 s)))).Nodup
        rw [hk]; exact h.2.1
      · intro g ms hm
        simp only [List.mem_map] at hm
        obtain ⟨gp, hgp, heq⟩ := hm
        obtain ⟨g0, ms0⟩ := gp
        simp only [Prod.mk.injEq] at heq
        rw [← heq.2]
        exact set_erase_nodup ms0 s (h.2.2 g0 ms0 hgp)

theorem command_step_wf (st : State) (s : Socket) (received : Option String)
    (h : st.wf) : (command_step st s received).1.wf := by
  apply command_step_cases (fun r => r.1.wf)
  · exact h
  · exact disconnect_client_wf st s h
  · intro msg; exact broadcast_all_wf st msg s h
  · intro recp msg; exact send_private_wf st s recp msg h
  · intro msg; exact h
  · intro g; exact create_group_wf st s g h
  · intro g; exact join_group_wf st s g h
  · intro g; exact leave_group_wf st s g h
  · intro g msg; exact send_group_wf st s g msg h
  · show (list_groups st s).1.wf
    rw [list_groups_state]; exact h
  · intro g; exact list_members_wf st s g h

theorem client_session_login_wf (st : State) (s : Socket) (recv1 recv2 : Option String)
    (h : st.wf) : (client_session_login st s recv1 recv2).1.wf := by
  unfold client_session_login
  cases recv1 with
  | none => exact h
  | some buffer1 =>
    cases recv2 with
    | none => exact h
    | some buffer2 =>
      simp only []
      split
      · exact h
      · split
        · exact h
        · exact broadcast_all_wf
            { st with connected_clients :=
                UMap.assign st.connected_clients s (strip buffer1) }
            (strip buffer1 ++ " joined the chat.") s
            ⟨UMap.keys_assign_nodup _ _ _ h.1, h.2.1, h.2.2⟩

theorem wf_step (sv : Server) (a : Action) (h : sv.st.wf) : (sv.step a).1.st.wf := by
  cases a with
  | connect s recv1 recv2 =>
    by_cases hs : s ∈ sv.active
    · simpa [Server.step, hs] using h
    · simpa [Server.step, hs] using client_session_login_wf sv.st s recv1 recv2 h
  | receive s received =>
    by_cases hs : s ∈ sv.active
    · simpa [Server.step, hs] using command_step_wf sv.st s received h
    · simpa [Server.step, hs] using h

theorem wf_run (actions : List Action) (sv : Server) (h : sv.st.wf) :
    (sv.run actions).st.wf := by
  induction actions generalizing sv with
  | nil => exact h
  | cons a rest ih =>
    unfold Server.run
    simp only [List.foldl_cons]
    exact ih _ (wf_step sv a h)

/-- In every reachable state the registry and the group table have no repeated
key and no member set has a repeated element. -/
theorem reachable_wf (users : UMap String String) (sv : Server)
    (h : Reachable users sv) : sv.st.wf := by
  obtain ⟨actions, rfl⟩ := h
  apply wf_run
  refine ⟨by simp [Server.init, UMap.keys], by simp [Server.init, UMap.keys], ?_⟩
  intro g members hm
  simp [Server.init] at hm

end GroupCast
